import Mathlib

/-!
Verification of the record reconciliation and streaming pipeline of
`src/data_loader.py` (class `NYTimesSource` and its helpers).

The Python values flowing through the pipeline (parsed JSON documents) are
modelled by the inductive type `PyVal`; Python `dict`s are association lists
that keep insertion order, with the invariant (stated as a hypothesis where
needed) that keys are distinct, exactly as in CPython.
-/

/-- A Python/JSON value: strings, integers, booleans, `None`, `NaN`
(pandas missing cells), lists, and insertion-ordered dictionaries with
string keys. -/
inductive PyVal where
  | str : String → PyVal
  | int : Int → PyVal
  | bool : Bool → PyVal
  | null : PyVal
  | nan : PyVal
  | list : List PyVal → PyVal
  | dict : List (String × PyVal) → PyVal

/-- A Python dictionary with string keys, as an insertion-ordered
association list. -/
abbrev Dict := List (String × PyVal)

/-- `d[k]` on a Python dict: the value of the first entry with key `k`
(the only one, when keys are distinct). -/
def dictGet (d : Dict) (k : String) : Option PyVal :=
  match d with
  | [] => none
  | (k', v) :: rest => if k' = k then some v else dictGet rest k

/-- `d[k] = v` on a Python dict: replace the value in place if the key is
present (keeping its position), otherwise append the new entry at the end —
CPython's insertion-order semantics. -/
def dictInsert (d : Dict) (k : String) (v : PyVal) : Dict :=
  if d.any (fun p => p.1 = k) then
    d.map (fun p => if p.1 = k then (k, v) else p)
  else d ++ [(k, v)]

/-- `doc.update(u)`: insert every entry of `u` in order. -/
def dictUpdate (d : Dict) (u : Dict) : Dict :=
  u.foldl (fun acc p => dictInsert acc p.1 p.2) d

/-- `key.split(".")` (Python `str.split` with a one-character separator),
expressed via `List.splitOn` on the character data. -/
def pySplit (s : String) : List String :=
  (s.data.splitOn '.').map String.mk

/-- `_get_nested_data(data, path)` (src/data_loader.py:143-147): walk the
path segment by segment with `_tmp = _tmp[key]`; `none` models the
`KeyError`/`TypeError` raised when a key is absent or the current value is
not a dict. -/
def _get_nested_data : PyVal → List String → Option PyVal
  | v, [] => some v
  | PyVal.dict d, k :: ks =>
    match dictGet d k with
    | some w => _get_nested_data w ks
    | none => none
  | _, _ :: _ => none

mutual
/-- Dict-nesting depth of a value: the length of the longest key path that
`_get_nested_data` can resolve. -/
def pyDepth : PyVal → Nat
  | PyVal.dict d => 1 + pyDepthEntries d
  | _ => 0

def pyDepthEntries : List (String × PyVal) → Nat
  | [] => 0
  | p :: rest => max (pyDepth p.2) (pyDepthEntries rest)
end

mutual
/-- The non-mapping leaf values of a value, by recursive descent into
mapping values only (lists and scalars are leaves), in document order.
This is the specification-side notion used by the flattening claims. -/
def pyLeaves : PyVal → List PyVal
  | PyVal.dict d => pyLeavesEntries d
  | v => [v]

def pyLeavesEntries : List (String × PyVal) → List PyVal
  | [] => []
  | p :: rest => pyLeaves p.2 ++ pyLeavesEntries rest
end

mutual
/-- Well-formedness of a value as a real Python/JSON document whose dict
keys are dot-free: at every dict level the keys are pairwise distinct (a
dict invariant) and contain no `'.'` character. -/
def pyWF : PyVal → Bool
  | PyVal.dict d => pyWFEntries d
  | _ => true

def pyWFEntries : List (String × PyVal) → Bool
  | [] => true
  | (k, v) :: rest =>
    !(k.data.any (fun c => c = '.')) && !(rest.any (fun p => p.1 = k)) &&
      pyWF v && pyWFEntries rest
end

/-- One pass of the `for key in keys` loop of `_flatten_dict`
(src/data_loader.py:156-162): resolve each key; emit non-dict values into
the accumulating flat dict, collect `parent.child` keys of dict values as
the next frontier.  `none` models the exception raised when a key path
fails to resolve. -/
def flattenRound (doc : Dict) : List String → Dict → Option (Dict × List String)
  | [], acc => some (acc, [])
  | k :: rest, acc =>
    match _get_nested_data (PyVal.dict doc) (pySplit k) with
    | none => none
    | some (PyVal.dict d) =>
      match flattenRound doc rest acc with
      | none => none
      | some (acc', nested) =>
        some (acc', d.map (fun p => k ++ "." ++ p.1) ++ nested)
    | some v => flattenRound doc rest (dictInsert acc k v)

/-- The `while go_deep` loop of `_flatten_dict` (src/data_loader.py:153-163):
`go_deep` is set exactly when some key resolved to a dict, i.e. when the
next frontier is non-empty.  Fuel bounds the number of passes; passing
`pyDepth (PyVal.dict doc) + 1` is always enough, since a frontier key of
round `r` splits into at least `r + 1` path segments and a path longer than
`pyDepth` cannot resolve (the Python loop would raise there). -/
def flattenLoop (doc : Dict) : Nat → List String → Dict → Option Dict
  | 0, _, _ => none
  | fuel + 1, keys, acc =>
    match flattenRound doc keys acc with
    | none => none
    | some (acc', nested) =>
      if nested = [] then some acc' else flattenLoop doc fuel nested acc'

/-- `_flatten_dict(doc)` (src/data_loader.py:149-165). -/
def _flatten_dict (doc : Dict) : Option Dict :=
  flattenLoop doc (pyDepth (PyVal.dict doc) + 1) (doc.map Prod.fst) []

example :
    _flatten_dict [("a", PyVal.dict [("b", PyVal.int 1)]), ("c", PyVal.int 3)]
      = some [("c", PyVal.int 3), ("a.b", PyVal.int 1)] := rfl

example :
    _flatten_dict [("a", PyVal.dict [("b", PyVal.int 1)]), ("a.b", PyVal.int 2)]
      = some [("a.b", PyVal.int 1)] := rfl

example : _flatten_dict [("a.b", PyVal.int 1)] = none := rfl

/-!
## The combined reference table and the Review-Status Joiner

`_load_data` builds `excel_data` as the outer join of the `review_status`
and `date_completed` sheets on `Reference Id` (src/data_loader.py:125-139);
its columns are, in order: `Row`, `Article Id`, `Reference Id`, `Status`,
`Date Completed`, `Reviewer`.  The joined frame has a fresh `RangeIndex`,
so row labels coincide with positions.  A row is modelled with typed cells,
`none` standing for a missing (`NaN`) cell introduced by the outer join.
The sheet loading itself is file I/O, external to the core per the spec,
so the combined table is taken as an input.
-/

/-- One row of the combined reference table. -/
structure RefRow where
  row : Option Int
  articleId : Option String
  referenceId : Option String
  status : Option String
  dateCompleted : Option String
  reviewer : Option String

/-- Label each row of the table with its positional index (the pandas
`RangeIndex` of the merged frame). -/
def labelRowsFrom (i : Nat) : List RefRow → List (Nat × RefRow)
  | [] => []
  | r :: rs => (i, r) :: labelRowsFrom (i + 1) rs

/-- The elementwise comparison `excel_data["Article Id"] == article_id`
where `article_id = doc.get("_id")`: a `NaN` cell or an absent/non-string
document id compares unequal. -/
def matchesAid (r : RefRow) (aid : Option PyVal) : Bool :=
  match r.articleId, aid with
  | some s, some (PyVal.str a) => s = a
  | _, _ => false

/-- `filtered_data["Row"].idxmax()`: the label of the first row whose
`Row` cell attains the maximum, `NaN` cells skipped; `none` models the
`ValueError` pandas raises on an empty or all-`NaN` selection.  The value
attained is returned alongside the label. -/
def idxmaxRow : List (Nat × RefRow) → Option (Nat × Int)
  | [] => none
  | (i, r) :: rest =>
    match r.row with
    | none => idxmaxRow rest
    | some v =>
      match idxmaxRow rest with
      | none => some (i, v)
      | some (j, w) => if v < w then some (j, w) else some (i, v)

/-- A pandas missing cell (`NaN`) as a Python value. -/
def optStrVal : Option String → PyVal
  | some s => PyVal.str s
  | none => PyVal.nan

/-- `series.to_dict()` of the selected row with the keys normalized by
`key.lower().replace(" ", "_")` (src/data_loader.py:172), in column
order. -/
def rowToUpdate (r : RefRow) : Dict :=
  [("row", match r.row with | some n => PyVal.int n | none => PyVal.nan),
   ("article_id", optStrVal r.articleId),
   ("reference_id", optStrVal r.referenceId),
   ("status", optStrVal r.status),
   ("date_completed", optStrVal r.dateCompleted),
   ("reviewer", optStrVal r.reviewer)]

/-- `_match_by_review_status(doc, excel_data)` (src/data_loader.py:167-174).
`doc.update(...)` mutates the caller's document in place and the method
returns that same dict, so the result is the pair
(state of the input document object after the call, returned mapping) —
by the source, the two components are the same merged mapping.
`none` models the `ValueError` from `idxmax` when no row matches. -/
def _match_by_review_status (doc : Dict) (excel : List RefRow) :
    Option (Dict × Dict) :=
  let aid := dictGet doc "_id"
  let filtered := (labelRowsFrom 0 excel).filter (fun p => matchesAid p.2 aid)
  match idxmaxRow filtered with
  | none => none
  | some (i, _) =>
    match excel.get? i with
    | none => none
    | some r =>
      let merged := dictUpdate doc (rowToUpdate r)
      some (merged, merged)

example :
    (_match_by_review_status [("_id", PyVal.str "A1")]
      [⟨some 1, some "A1", some "R1", some "pending", none, none⟩,
       ⟨some 2, some "A1", some "R2", some "approved", none, none⟩]).map
        (fun p => dictGet p.2 "status")
      = some (some (PyVal.str "approved")) := rfl

/-!
## Reconciliation generator, source state, schema and batches

Errors are classified after the Python exceptions they model;
`NoArgumentsException` is the code's name for the spec's
`ConfigurationError`.
-/

/-- The Python exceptions the pipeline can raise. -/
inductive PyErr where
  | noArguments
  | keyError
  | indexError
  | attributeError
  | valueError
deriving DecidableEq

/-- The body of the reconciliation generator for a single raw document
(src/data_loader.py:177-180): flatten, then join.  A non-dict document
makes `doc.keys()` raise `AttributeError`; a failed path resolution in
the flattener raises `KeyError`; an empty join selection raises
`ValueError`. -/
def reconcileE (d : PyVal) (excel : List RefRow) : Except PyErr Dict :=
  match d with
  | PyVal.dict dd =>
    match _flatten_dict dd with
    | none => Except.error PyErr.keyError
    | some f =>
      match _match_by_review_status f excel with
      | none => Except.error PyErr.valueError
      | some p => Except.ok p.2
  | _ => Except.error PyErr.attributeError

/-- `_docs_generator(docs, excel_data)` (src/data_loader.py:176-180) run to
completion: the list of reconciled records, one per raw document in input
order, or the exception at which the lazy generator dies (records after it
are never produced). -/
def _docs_generator : List PyVal → List RefRow → Except PyErr (List Dict)
  | [], _ => Except.ok []
  | d :: rest, excel =>
    match reconcileE d excel with
    | Except.error e => Except.error e
    | Except.ok r =>
      match _docs_generator rest excel with
      | Except.error e => Except.error e
      | Except.ok rs => Except.ok (r :: rs)

/-- The configuration arguments (`argparse.Namespace`): the two file
locations. -/
structure Args where
  apiResponseFile : String
  referenceDataFile : String

/-- The external files, as already-parsed content: the JSON object of the
API response file, and the combined reference table obtained from the two
sheets of the reference file (loading and outer-joining them is external
I/O per the spec). -/
structure World where
  apiResponse : PyVal
  excelData : List RefRow

/-- The mutable fields of a `NYTimesSource` instance
(src/data_loader.py:62-66): `self.args`, `self._docs` (modelled by the
raw documents the generator has not yet consumed; `none` = not loaded) and
`self._schema`. -/
structure SourceState where
  args : Option Args
  docs : Option (List PyVal)
  schema : Option (List String)

/-- `_check_args` (src/data_loader.py:110-112). -/
def _check_args (s : SourceState) : Except PyErr Unit :=
  match s.args with
  | none => Except.error PyErr.noArguments
  | some _ => Except.ok ()

/-- `_load_data` (src/data_loader.py:119-141): no-op when the docs are
already loaded; otherwise descend to `response.docs` in the parsed JSON,
compute the schema from document 0 (raising `IndexError` when the
collection is empty, `TypeError`-like errors when it is not a list), and
install the generator.  The assignments happen only after every failing
step, so a raising call leaves the state unchanged. -/
def _load_data (s : SourceState) (w : World) : Except PyErr SourceState :=
  match s.docs with
  | some _ => Except.ok s
  | none =>
    match _get_nested_data w.apiResponse ["response", "docs"] with
    | none => Except.error PyErr.keyError
    | some (PyVal.list ds) =>
      match ds.get? 0 with
      | none => Except.error PyErr.indexError
      | some d0 =>
        match reconcileE d0 w.excelData with
        | Except.error e => Except.error e
        | Except.ok rec0 =>
          Except.ok { s with docs := some ds,
                             schema := some (rec0.map Prod.fst) }
    | some _ => Except.error PyErr.keyError

/-- `_load_schema` (src/data_loader.py:114-117). -/
def _load_schema (s : SourceState) (w : World) : Except PyErr SourceState :=
  match s.schema with
  | some _ => Except.ok s
  | none => _load_data s w

/-- `getSchema` (src/data_loader.py:99-108): check the arguments, load the
schema, and return `self._schema` (an `Option`, as in the source, where a
still-unset schema would return `None`). -/
def getSchema (s : SourceState) (w : World) :
    Except PyErr (SourceState × Option (List String)) :=
  match _check_args s with
  | Except.error e => Except.error e
  | Except.ok _ =>
    match _load_schema s w with
    | Except.error e => Except.error e
    | Except.ok s' => Except.ok (s', s'.schema)

/-- The `for _ in range(batch_size)` collection loop inside `getDataBatch`
(src/data_loader.py:88-92): pull up to `n` records from the generator.
Returns the records collected, the remaining raw documents, and whether
`StopIteration` was raised (the stream ran dry before `n` records).
A reconciliation error carries the documents after the failing one;
the partially collected batch is discarded, as in the source. -/
def collectBatch (excel : List RefRow) :
    Nat → List PyVal → Except (PyErr × List PyVal) (List Dict × List PyVal × Bool)
  | 0, ds => Except.ok ([], ds, false)
  | _ + 1, [] => Except.ok ([], [], true)
  | n + 1, d :: ds =>
    match reconcileE d excel with
    | Except.error e => Except.error (e, ds)
    | Except.ok r =>
      match collectBatch excel n ds with
      | Except.error p => Except.error p
      | Except.ok (rs, ds', st) => Except.ok (r :: rs, ds', st)

/-- Outcome of driving the `getDataBatch` generator for a bounded number
of iterations: the batches yielded so far, and whether the loop `break`-ed
(`finished`), raised (`failed`), or was still running when the iteration
bound ran out (`outOfFuel` — with `batch_size ≤ 0` the loop never
terminates). -/
inductive BatchOutcome where
  | failed : List (List Dict) → PyErr → BatchOutcome
  | finished : List (List Dict) → BatchOutcome
  | outOfFuel : List (List Dict) → BatchOutcome

/-- Prepend one yielded batch to an outcome's yield list. -/
def BatchOutcome.consYield (b : List Dict) : BatchOutcome → BatchOutcome
  | BatchOutcome.failed ys e => BatchOutcome.failed (b :: ys) e
  | BatchOutcome.finished ys => BatchOutcome.finished (b :: ys)
  | BatchOutcome.outOfFuel ys => BatchOutcome.outOfFuel (b :: ys)

/-- The batches yielded, whatever the outcome. -/
def BatchOutcome.yielded : BatchOutcome → List (List Dict)
  | BatchOutcome.failed ys _ => ys
  | BatchOutcome.finished ys => ys
  | BatchOutcome.outOfFuel ys => ys

/-- The `while True` loop of `getDataBatch` (src/data_loader.py:87-97),
driven for at most `fuel` iterations over the remaining raw documents:
collect `batch_size` records (`Int.toNat` reflects that `range(b)` is
empty for `b ≤ 0`); on `StopIteration` yield the partial batch only when
it is non-empty and stop; otherwise yield the full batch and continue.
Also returns the raw documents not yet consumed. -/
def batchLoop (excel : List RefRow) (batchSize : Int) :
    Nat → List PyVal → BatchOutcome × List PyVal
  | 0, ds => (BatchOutcome.outOfFuel [], ds)
  | fuel + 1, ds =>
    match collectBatch excel batchSize.toNat ds with
    | Except.error (e, rest) => (BatchOutcome.failed [] e, rest)
    | Except.ok (results, rest, stopped) =>
      if stopped then
        if results.isEmpty then (BatchOutcome.finished [], rest)
        else (BatchOutcome.finished [results], rest)
      else
        let next := batchLoop excel batchSize fuel rest
        (next.1.consYield results, next.2)

/-- `getDataBatch(batch_size)` (src/data_loader.py:78-97), driven for at
most `fuel` loop iterations: check the arguments, load the data, then run
the batching loop; the final state records how far the generator was
consumed.  A failure before the loop leaves the state unchanged, exactly
as the raising Python code does. -/
def getDataBatchRun (s : SourceState) (w : World) (batchSize : Int)
    (fuel : Nat) : SourceState × BatchOutcome :=
  match _check_args s with
  | Except.error e => (s, BatchOutcome.failed [] e)
  | Except.ok _ =>
    match _load_data s w with
    | Except.error e => (s, BatchOutcome.failed [] e)
    | Except.ok s' =>
      let res := batchLoop w.excelData batchSize fuel (s'.docs.getD [])
      ({ s' with docs := some res.2 }, res.1)

/-!
## Specification-side helper definitions

These formalize vocabulary of the claims (dotted paths, leaf multisets);
they are not translations of source code.
-/

/-- Join path segments with dots: the inverse of `pySplit` on dot-free
segments. -/
def dotJoin (segs : List String) : String :=
  String.mk (List.intercalate ['.'] (segs.map String.data))

/-- A usable path: non-empty, with dot-free segments. -/
def segsOK (segs : List String) : Prop :=
  segs ≠ [] ∧ ∀ t ∈ segs, ¬ '.' ∈ t.data

/-- Is a value a Python mapping? -/
def PyVal.isDict : PyVal → Bool
  | PyVal.dict _ => true
  | _ => false

/-- The entries a frontier of resolved paths emits into the flat dict in
one pass: the non-mapping values, under their dotted keys. -/
def emitFlat (fr : List (List String × PyVal)) : Dict :=
  (fr.filter (fun p => !(p.2.isDict))).map (fun p => (dotJoin p.1, p.2))

/-- The next frontier: each mapping value is replaced by one entry per
child, with the path extended by the child key. -/
def expandFrontier (fr : List (List String × PyVal)) :
    List (List String × PyVal) :=
  fr.flatMap (fun p =>
    match p.2 with
    | PyVal.dict dd => dd.map (fun q => (p.1 ++ [q.1], q.2))
    | _ => [])



/-!
## Shared lemmas about dictionaries
-/

theorem dictGet_eq_none_of_not_any (d : Dict) (k : String)
    (h : ¬ d.any (fun p => p.1 = k)) : dictGet d k = none := by
  induction d with
  | nil => rfl
  | cons p rest ih =>
    simp only [List.any_cons, Bool.or_eq_true, decide_eq_true_eq] at h
    push_neg at h
    simp only [dictGet, if_neg h.1]
    exact ih (by simpa using h.2)

theorem dictGet_replace (rest : Dict) (k : String) (v : PyVal) (k' : String) :
    dictGet (rest.map (fun p => if p.1 = k then (k, v) else p)) k' =
      if k' = k then (if rest.any (fun p => p.1 = k) then some v else none)
      else dictGet rest k' := by
  induction rest with
  | nil => by_cases hk' : k' = k <;> simp [dictGet, hk']
  | cons p t ih =>
    rcases p with ⟨pk, pv⟩
    simp only [List.map_cons]
    by_cases hp : pk = k
    · have hhead : (if ((pk, pv) : String × PyVal).1 = k then (k, v) else (pk, pv))
          = (k, v) := by simp [hp]
      rw [hhead]
      by_cases hk' : k' = k
      · subst hk'
        simp [dictGet, List.any_cons, hp]
      · have h1 : ¬ k = k' := fun h => hk' h.symm
        have h2 : ¬ pk = k' := fun h => h1 (hp.symm.trans h)
        simp only [dictGet, if_neg h1, ih, if_neg hk', if_neg h2]
    · have hhead : (if ((pk, pv) : String × PyVal).1 = k then (k, v) else (pk, pv))
          = (pk, pv) := by simp [hp]
      rw [hhead]
      by_cases hpk' : pk = k'
      · have hk' : ¬ k' = k := fun h => hp (hpk'.trans h)
        simp [dictGet, hpk', hk']
      · simp only [dictGet, if_neg hpk', ih, List.any_cons]
        by_cases hk' : k' = k
        · simp only [decide_eq_false hp, Bool.false_or]
        · simp [hk']

theorem dictGet_append_single (d : Dict) (k : String) (v : PyVal) (k' : String) :
    dictGet (d ++ [(k, v)]) k' =
      match dictGet d k' with
      | some w => some w
      | none => if k = k' then some v else none := by
  induction d with
  | nil => simp [dictGet]
  | cons p rest ih =>
    rcases p with ⟨pk, pv⟩
    by_cases hpk' : pk = k'
    · simp [dictGet, hpk']
    · simp only [List.cons_append, dictGet, if_neg hpk']
      exact ih

theorem dictGet_dictInsert (d : Dict) (k : String) (v : PyVal) (k' : String) :
    dictGet (dictInsert d k v) k' = if k' = k then some v else dictGet d k' := by
  unfold dictInsert
  by_cases hmem : d.any (fun p => p.1 = k)
  · rw [if_pos hmem, dictGet_replace]
    by_cases hk' : k' = k <;> simp [hk', hmem]
  · rw [if_neg hmem, dictGet_append_single]
    have hnone : dictGet d k = none := dictGet_eq_none_of_not_any d k hmem
    by_cases hk' : k' = k
    · subst hk'
      simp [hnone]
    · have h2 : ¬ k = k' := fun h => hk' h.symm
      rw [if_neg hk']
      cases h : dictGet d k' with
      | none => simp [h2]
      | some w => simp

theorem dictGet_dictUpdate_isSome (d : Dict) (u : Dict) (k : String)
    (h : (dictGet d k).isSome = true ∨ k ∈ u.map Prod.fst) :
    (dictGet (dictUpdate d u) k).isSome = true := by
  induction u generalizing d with
  | nil =>
    rcases h with h | h
    · exact h
    · simp at h
  | cons p rest ih =>
    show (dictGet (dictUpdate (dictInsert d p.1 p.2) rest) k).isSome = true
    apply ih
    by_cases hk : k = p.1
    · left
      rw [dictGet_dictInsert, if_pos hk]
      rfl
    · rcases h with h | h
      · left
        rw [dictGet_dictInsert, if_neg hk]
        exact h
      · rw [List.map_cons] at h
        rcases List.mem_cons.mp h with h' | h'
        · exact absurd h' hk
        · right
          exact h'

/-!
## Claim C5 — unconfigured source fails with ConfigurationError
-/

/-- C5: on an unconfigured source (`configure` never called, so `self.args`
is `None`), `getSchema()` and `getDataBatch(B)` fail with the
configuration error (`NoArgumentsException`), yield no records, and leave
the instance state unchanged. -/
theorem c5_unconfigured_configuration_error (s : SourceState) (w : World)
    (B : Int) (fuel : Nat) (h : s.args = none) :
    getSchema s w = Except.error PyErr.noArguments ∧
    getDataBatchRun s w B fuel = (s, BatchOutcome.failed [] PyErr.noArguments) := by
  constructor
  · simp [getSchema, _check_args, h]
  · simp [getDataBatchRun, _check_args, h]

/-- Witness for C5 at a concrete unconfigured instance. -/
theorem c5_witness :
    (SourceState.mk none none none).args = none ∧
    (getSchema (SourceState.mk none none none) (World.mk PyVal.null []) =
        Except.error PyErr.noArguments ∧
      getDataBatchRun (SourceState.mk none none none) (World.mk PyVal.null []) 2 5 =
        (SourceState.mk none none none, BatchOutcome.failed [] PyErr.noArguments)) :=
  ⟨rfl, c5_unconfigured_configuration_error (SourceState.mk none none none)
    (World.mk PyVal.null []) 2 5 rfl⟩

/-!
## Claim C10 — empty document collection makes the first load fail
-/

/-- C10: on a configured but not yet loaded source whose raw document
collection at `response.docs` is the empty list, `getSchema()` and the
first pull of `getDataBatch(B)` fail with the `IndexError` from `docs[0]`
(no empty schema and no batches are returned), leaving the state
unchanged. -/
theorem c10_empty_docs_fails (s : SourceState) (w : World) (B : Int)
    (fuel : Nat) (hargs : s.args.isSome = true) (hdocs : s.docs = none)
    (hschema : s.schema = none)
    (hresp : _get_nested_data w.apiResponse ["response", "docs"]
      = some (PyVal.list [])) :
    getSchema s w = Except.error PyErr.indexError ∧
    getDataBatchRun s w B fuel = (s, BatchOutcome.failed [] PyErr.indexError) := by
  obtain ⟨a, ha⟩ := Option.isSome_iff_exists.mp hargs
  constructor
  · simp [getSchema, _check_args, _load_schema, _load_data, ha, hdocs, hschema,
      hresp]
  · simp [getDataBatchRun, _check_args, _load_data, ha, hdocs, hresp]

/-- Witness for C10: a configured source over an API response whose
`response.docs` list is empty. -/
theorem c10_witness :
    (SourceState.mk (some (Args.mk "api_response.json" "reference_data.xlsx"))
        none none).args.isSome = true ∧
    (SourceState.mk (some (Args.mk "api_response.json" "reference_data.xlsx"))
        none none).docs = none ∧
    (SourceState.mk (some (Args.mk "api_response.json" "reference_data.xlsx"))
        none none).schema = none ∧
    _get_nested_data (PyVal.dict [("response", PyVal.dict
        [("docs", PyVal.list [])])]) ["response", "docs"]
      = some (PyVal.list []) ∧
    (getSchema (SourceState.mk (some (Args.mk "api_response.json"
          "reference_data.xlsx")) none none)
        (World.mk (PyVal.dict [("response", PyVal.dict
          [("docs", PyVal.list [])])]) []) =
        Except.error PyErr.indexError ∧
      getDataBatchRun (SourceState.mk (some (Args.mk "api_response.json"
          "reference_data.xlsx")) none none)
        (World.mk (PyVal.dict [("response", PyVal.dict
          [("docs", PyVal.list [])])]) []) 3 4 =
        (SourceState.mk (some (Args.mk "api_response.json"
          "reference_data.xlsx")) none none,
         BatchOutcome.failed [] PyErr.indexError)) :=
  ⟨rfl, rfl, rfl, rfl,
   c10_empty_docs_fails _ _ 3 4 rfl rfl rfl rfl⟩

/-!
## Claim C4 — missing batch-size validation (code bug)

`getDataBatch` never validates `batch_size`.  With `batch_size ≤ 0` the
collection loop `for _ in range(batch_size)` never pulls from the
generator, `StopIteration` is never raised, and the `while True` loop
yields an empty list forever.
-/

theorem batchLoop_nonpos_toNat (excel : List RefRow) (B : Int)
    (hB : B.toNat = 0) :
    ∀ (fuel : Nat) (ds : List PyVal),
      batchLoop excel B fuel ds
        = (BatchOutcome.outOfFuel (List.replicate fuel []), ds) := by
  intro fuel
  induction fuel with
  | zero => intro ds; rfl
  | succ n ih =>
    intro ds
    simp only [batchLoop, hB, collectBatch, List.isEmpty_nil, if_neg, ih ds,
      List.replicate_succ]
    rfl

/-- C4 (the actual behavior of the code): on a configured, loaded source,
`getDataBatch(B)` with `B ≤ 0` raises nothing — in particular not the
`InvalidArgument` the spec requires — and instead yields an empty batch on
every iteration, forever, leaving the cursor untouched. -/
theorem c4_nonpositive_batch_size_loops (s : SourceState) (w : World)
    (ds : List PyVal) (B : Int) (fuel : Nat)
    (hargs : s.args.isSome = true) (hdocs : s.docs = some ds) (hB : B ≤ 0) :
    getDataBatchRun s w B fuel
      = (s, BatchOutcome.outOfFuel (List.replicate fuel [])) := by
  obtain ⟨a, ha⟩ := Option.isSome_iff_exists.mp hargs
  have hBn : B.toNat = 0 := Int.toNat_of_nonpos hB
  cases s with
  | mk args0 docs0 schema0 =>
    simp only [SourceState.args] at ha
    simp only [SourceState.docs] at hdocs
    subst hdocs
    simp [getDataBatchRun, _check_args, _load_data, ha,
      batchLoop_nonpos_toNat w.excelData B hBn fuel ds]

/-- Witness for C4 at batch size 0 and three loop iterations. -/
theorem c4_witness :
    (SourceState.mk (some (Args.mk "a" "r")) (some []) none).args.isSome
        = true ∧
    (SourceState.mk (some (Args.mk "a" "r")) (some []) none).docs = some [] ∧
    (0 : Int) ≤ 0 ∧
    getDataBatchRun (SourceState.mk (some (Args.mk "a" "r")) (some []) none)
        (World.mk PyVal.null []) 0 3
      = (SourceState.mk (some (Args.mk "a" "r")) (some []) none,
         BatchOutcome.outOfFuel [[], [], []]) :=
  ⟨rfl, rfl, le_refl 0,
   c4_nonpositive_batch_size_loops _ _ [] 0 3 rfl rfl (le_refl 0)⟩

/-!
## Claim C6 — the joiner mutates the input document in place
-/

/-- C6 counterexample: for the document `{"_id": "A1"}` and a one-row
reference table, the document object's state after the call (the first
component) is the merged mapping, not the unchanged input — refuting the
claim that the joiner leaves the input document unmutated and free of the
merged keys. -/
theorem c6_counterexample :
    _match_by_review_status [("_id", PyVal.str "A1")]
        [RefRow.mk (some 1) (some "A1") (some "R1") (some "pending") none none]
      = some ([("_id", PyVal.str "A1"), ("row", PyVal.int 1),
               ("article_id", PyVal.str "A1"), ("reference_id", PyVal.str "R1"),
               ("status", PyVal.str "pending"), ("date_completed", PyVal.nan),
               ("reviewer", PyVal.nan)],
              [("_id", PyVal.str "A1"), ("row", PyVal.int 1),
               ("article_id", PyVal.str "A1"), ("reference_id", PyVal.str "R1"),
               ("status", PyVal.str "pending"), ("date_completed", PyVal.nan),
               ("reviewer", PyVal.nan)]) ∧
    ([("_id", PyVal.str "A1"), ("row", PyVal.int 1),
      ("article_id", PyVal.str "A1"), ("reference_id", PyVal.str "R1"),
      ("status", PyVal.str "pending"), ("date_completed", PyVal.nan),
      ("reviewer", PyVal.nan)] : Dict) ≠ [("_id", PyVal.str "A1")] :=
  ⟨rfl, fun h => absurd (congrArg List.length h) (by decide)⟩

/-- C6 amended: when the joiner succeeds it returns the input document
object itself, merged in place — the post-call state of the input document
equals the returned mapping, and both contain every merged normalized
reference column. -/
theorem c6_in_place_merge (doc : Dict) (excel : List RefRow) (d r : Dict)
    (h : _match_by_review_status doc excel = some (d, r)) :
    d = r ∧
    ∀ c ∈ ["row", "article_id", "reference_id", "status", "date_completed",
           "reviewer"], (dictGet d c).isSome = true := by
  unfold _match_by_review_status at h
  simp only [] at h
  split at h
  · exact absurd h (by simp)
  · split at h
    · exact absurd h (by simp)
    · rename_i i v hidx rr hget
      injection h with h'
      have hd : d = dictUpdate doc (rowToUpdate rr) := congrArg Prod.fst h'.symm
      have hr : r = dictUpdate doc (rowToUpdate rr) := congrArg Prod.snd h'.symm
      subst hd
      subst hr
      refine ⟨rfl, ?_⟩
      intro c hc
      apply dictGet_dictUpdate_isSome
      right
      simpa [rowToUpdate] using hc

/-- Witness for C6's amended claim at a concrete document and table. -/
theorem c6_witness :
    _match_by_review_status [("_id", PyVal.str "A1")]
        [RefRow.mk (some 2) (some "A1") (some "R2") (some "approved") none none]
      = some ([("_id", PyVal.str "A1"), ("row", PyVal.int 2),
               ("article_id", PyVal.str "A1"), ("reference_id", PyVal.str "R2"),
               ("status", PyVal.str "approved"), ("date_completed", PyVal.nan),
               ("reviewer", PyVal.nan)],
              [("_id", PyVal.str "A1"), ("row", PyVal.int 2),
               ("article_id", PyVal.str "A1"), ("reference_id", PyVal.str "R2"),
               ("status", PyVal.str "approved"), ("date_completed", PyVal.nan),
               ("reviewer", PyVal.nan)]) ∧
    (([("_id", PyVal.str "A1"), ("row", PyVal.int 2),
       ("article_id", PyVal.str "A1"), ("reference_id", PyVal.str "R2"),
       ("status", PyVal.str "approved"), ("date_completed", PyVal.nan),
       ("reviewer", PyVal.nan)] : Dict)
      = [("_id", PyVal.str "A1"), ("row", PyVal.int 2),
         ("article_id", PyVal.str "A1"), ("reference_id", PyVal.str "R2"),
         ("status", PyVal.str "approved"), ("date_completed", PyVal.nan),
         ("reviewer", PyVal.nan)] ∧
     ∀ c ∈ ["row", "article_id", "reference_id", "status", "date_completed",
            "reviewer"],
       (dictGet [("_id", PyVal.str "A1"), ("row", PyVal.int 2),
         ("article_id", PyVal.str "A1"), ("reference_id", PyVal.str "R2"),
         ("status", PyVal.str "approved"), ("date_completed", PyVal.nan),
         ("reviewer", PyVal.nan)] c).isSome = true) :=
  ⟨rfl, c6_in_place_merge [("_id", PyVal.str "A1")]
    [RefRow.mk (some 2) (some "A1") (some "R2") (some "approved") none none]
    _ _ rfl⟩

/-!
## Claim C9 — the reconciliation generator is an ordered map
-/

/-- C9: when the reconciliation generator runs to completion, it produces
exactly one reconciled record per raw document, in input order, the `i`-th
record being flatten-then-join of the `i`-th raw document. -/
theorem c9_generator_order (docs : List PyVal) (excel : List RefRow)
    (recs : List Dict) (h : _docs_generator docs excel = Except.ok recs) :
    recs.length = docs.length ∧
    ∀ i : Nat, i < docs.length →
      ∃ d r, docs.get? i = some d ∧ recs.get? i = some r ∧
        reconcileE d excel = Except.ok r := by
  induction docs generalizing recs with
  | nil =>
    unfold _docs_generator at h
    injection h with h'
    subst h'
    exact ⟨rfl, fun i hi => absurd hi (by simp)⟩
  | cons d rest ih =>
    unfold _docs_generator at h
    cases hr : reconcileE d excel with
    | error e => rw [hr] at h; exact absurd h (by simp)
    | ok r =>
      rw [hr] at h
      cases hg : _docs_generator rest excel with
      | error e => rw [hg] at h; exact absurd h (by simp)
      | ok rs =>
        rw [hg] at h
        injection h with h'
        subst h'
        obtain ⟨hlen, hidx⟩ := ih rs hg
        refine ⟨by simp [hlen], ?_⟩
        intro i hi
        match i with
        | 0 => exact ⟨d, r, rfl, rfl, hr⟩
        | Nat.succ j =>
          have hj : j < rest.length := by simpa using hi
          obtain ⟨d', r', h1, h2, h3⟩ := hidx j hj
          exact ⟨d', r', h1, h2, h3⟩

/-- Witness for C9: two concrete documents reconciled against a one-row
table. -/
theorem c9_witness :
    _docs_generator
        [PyVal.dict [("_id", PyVal.str "A1")],
         PyVal.dict [("_id", PyVal.str "A1"), ("x", PyVal.int 5)]]
        [RefRow.mk (some 1) (some "A1") (some "R1") (some "pending") none none]
      = Except.ok
        [[("_id", PyVal.str "A1"), ("row", PyVal.int 1),
          ("article_id", PyVal.str "A1"), ("reference_id", PyVal.str "R1"),
          ("status", PyVal.str "pending"), ("date_completed", PyVal.nan),
          ("reviewer", PyVal.nan)],
         [("_id", PyVal.str "A1"), ("x", PyVal.int 5), ("row", PyVal.int 1),
          ("article_id", PyVal.str "A1"), ("reference_id", PyVal.str "R1"),
          ("status", PyVal.str "pending"), ("date_completed", PyVal.nan),
          ("reviewer", PyVal.nan)]] ∧
    (([[("_id", PyVal.str "A1"), ("row", PyVal.int 1),
        ("article_id", PyVal.str "A1"), ("reference_id", PyVal.str "R1"),
        ("status", PyVal.str "pending"), ("date_completed", PyVal.nan),
        ("reviewer", PyVal.nan)],
       [("_id", PyVal.str "A1"), ("x", PyVal.int 5), ("row", PyVal.int 1),
        ("article_id", PyVal.str "A1"), ("reference_id", PyVal.str "R1"),
        ("status", PyVal.str "pending"), ("date_completed", PyVal.nan),
        ("reviewer", PyVal.nan)]] : List Dict).length =
      ([PyVal.dict [("_id", PyVal.str "A1")],
        PyVal.dict [("_id", PyVal.str "A1"), ("x", PyVal.int 5)]]).length ∧
     ∀ i : Nat,
       i < ([PyVal.dict [("_id", PyVal.str "A1")],
             PyVal.dict [("_id", PyVal.str "A1"), ("x", PyVal.int 5)]]).length →
       ∃ d r,
         ([PyVal.dict [("_id", PyVal.str "A1")],
           PyVal.dict [("_id", PyVal.str "A1"), ("x", PyVal.int 5)]]).get? i
           = some d ∧
         ([[("_id", PyVal.str "A1"), ("row", PyVal.int 1),
            ("article_id", PyVal.str "A1"), ("reference_id", PyVal.str "R1"),
            ("status", PyVal.str "pending"), ("date_completed", PyVal.nan),
            ("reviewer", PyVal.nan)],
           [("_id", PyVal.str "A1"), ("x", PyVal.int 5), ("row", PyVal.int 1),
            ("article_id", PyVal.str "A1"), ("reference_id", PyVal.str "R1"),
            ("status", PyVal.str "pending"), ("date_completed", PyVal.nan),
            ("reviewer", PyVal.nan)]] : List Dict).get? i = some r ∧
         reconcileE d
           [RefRow.mk (some 1) (some "A1") (some "R1") (some "pending")
             none none] = Except.ok r) :=
  ⟨rfl, c9_generator_order
    [PyVal.dict [("_id", PyVal.str "A1")],
     PyVal.dict [("_id", PyVal.str "A1"), ("x", PyVal.int 5)]]
    [RefRow.mk (some 1) (some "A1") (some "R1") (some "pending") none none]
    _ rfl⟩

/-!
## Claim C2 — the joiner selects the matching row of maximal ordinal
-/

theorem labelRowsFrom_fst_le (l : List RefRow) :
    ∀ (k : Nat), ∀ q ∈ labelRowsFrom k l, k ≤ q.1 := by
  induction l with
  | nil => intro k q hq; simp [labelRowsFrom] at hq
  | cons x xs ih =>
    intro k q hq
    rcases List.mem_cons.mp hq with h | h
    · rw [h]
    · exact Nat.le_of_succ_le (ih (k + 1) q h)

theorem labelRowsFrom_fst_nodup (l : List RefRow) :
    ∀ (k : Nat), ((labelRowsFrom k l).map Prod.fst).Nodup := by
  induction l with
  | nil => intro k; simp [labelRowsFrom]
  | cons x xs ih =>
    intro k
    simp only [labelRowsFrom, List.map_cons]
    refine List.nodup_cons.mpr ⟨?_, ih (k + 1)⟩
    intro hk
    rcases List.mem_map.mp hk with ⟨q, hq, hq1⟩
    have h1 := labelRowsFrom_fst_le xs (k + 1) q hq
    omega

theorem labelRowsFrom_get? (l : List RefRow) :
    ∀ (k i : Nat) (r : RefRow), (i, r) ∈ labelRowsFrom k l →
      k ≤ i ∧ l.get? (i - k) = some r := by
  induction l with
  | nil => intro k i r h; simp [labelRowsFrom] at h
  | cons x xs ih =>
    intro k i r h
    rcases List.mem_cons.mp h with h' | h'
    · injection h' with h1 h2
      subst h1
      subst h2
      exact ⟨Nat.le_refl _, by simp⟩
    · obtain ⟨hle, hget⟩ := ih (k + 1) i r h'
      refine ⟨Nat.le_of_succ_le hle, ?_⟩
      have h3 : i - k = (i - (k + 1)) + 1 := by omega
      rw [h3]
      simpa using hget

theorem labelRowsFrom_mem_of_get? (l : List RefRow) :
    ∀ (k j : Nat) (r : RefRow), l.get? j = some r →
      (k + j, r) ∈ labelRowsFrom k l := by
  induction l with
  | nil => intro k j r h; simp at h
  | cons x xs ih =>
    intro k j r h
    match j with
    | 0 =>
      have : x = r := by simpa using h
      subst this
      exact List.mem_cons_self _ _
    | Nat.succ j' =>
      have h' : xs.get? j' = some r := by simpa using h
      have := ih (k + 1) j' r h'
      have harith : k + (j' + 1) = (k + 1) + j' := by omega
      rw [harith]
      exact List.mem_cons_of_mem _ this

theorem idxmaxRow_lt {v : Int} :
    ∀ (l : List (Nat × RefRow)),
      (∀ q ∈ l, ∀ w : Int, q.2.row = some w → w < v) →
      ∀ (j : Nat) (w : Int), idxmaxRow l = some (j, w) → w < v := by
  intro l
  induction l with
  | nil => intro _ j w h; simp [idxmaxRow] at h
  | cons p rest ih =>
    intro hall j w h
    rcases p with ⟨i, r⟩
    cases hr : r.row with
    | none =>
      simp only [idxmaxRow, hr] at h
      exact ih (fun q hq => hall q (List.mem_cons_of_mem _ hq)) j w h
    | some v0 =>
      have hv0 : v0 < v := hall (i, r) (List.mem_cons_self _ _) v0 hr
      cases hrest : idxmaxRow rest with
      | none =>
        simp only [idxmaxRow, hr, hrest, Option.some.injEq, Prod.mk.injEq] at h
        rw [← h.2]
        exact hv0
      | some q =>
        rcases q with ⟨j', w'⟩
        have hw' : w' < v :=
          ih (fun q hq => hall q (List.mem_cons_of_mem _ hq)) j' w' hrest
        simp only [idxmaxRow, hr, hrest] at h
        by_cases hc : v0 < w'
        · rw [if_pos hc] at h
          injection h with h'
          injection h' with h1 h2
          rw [← h2]
          exact hw'
        · rw [if_neg hc] at h
          injection h with h'
          injection h' with h1 h2
          rw [← h2]
          exact hv0

theorem idxmaxRow_unique {i : Nat} {r : RefRow} {v : Int} :
    ∀ (l : List (Nat × RefRow)),
      (l.map Prod.fst).Nodup → (i, r) ∈ l → r.row = some v →
      (∀ q ∈ l, q.1 ≠ i → ∀ w : Int, q.2.row = some w → w < v) →
      idxmaxRow l = some (i, v) := by
  intro l
  induction l with
  | nil => intro _ hmem; simp at hmem
  | cons p rest ih =>
    intro hnd hmem hv hmax
    rcases p with ⟨j, s⟩
    rw [List.map_cons, List.nodup_cons] at hnd
    rcases List.mem_cons.mp hmem with he | hmem'
    · injection he with h1 h2
      subst h1
      subst h2
      simp only [idxmaxRow, hv]
      cases hrest : idxmaxRow rest with
      | none => rfl
      | some q =>
        rcases q with ⟨j', w'⟩
        have hw' : w' < v := by
          apply idxmaxRow_lt rest ?_ j' w' hrest
          intro q hq w hw
          have hqi : q.1 ≠ i := by
            intro hq1
            exact hnd.1 (List.mem_map.mpr ⟨q, hq, hq1⟩)
          exact hmax q (List.mem_cons_of_mem _ hq) hqi w hw
        simp [not_lt.mpr (le_of_lt hw')]
    · have hji : j ≠ i := by
        intro he
        subst he
        exact hnd.1 (List.mem_map.mpr ⟨(j, r), hmem', rfl⟩)
      have hrest := ih hnd.2 hmem' hv
        (fun q hq => hmax q (List.mem_cons_of_mem _ hq))
      cases hs : s.row with
      | none => simp only [idxmaxRow, hs, hrest]
      | some w0 =>
        have hw0 : w0 < v := hmax (j, s) (List.mem_cons_self _ _) hji w0 hs
        simp only [idxmaxRow, hs, hrest]
        rw [if_pos hw0]

/-- C2: for a flattened document whose identifier matches at least two rows
of the combined table, when one matching row at position `i` has the
strictly greatest (non-`NaN`) row ordinal among the matches, the joiner
merges exactly that row's normalized columns into the document. -/
theorem c2_max_ordinal_join (doc : Dict) (excel : List RefRow) (a : String)
    (i : Nat) (r : RefRow) (v : Int)
    (hid : dictGet doc "_id" = some (PyVal.str a))
    (hr : excel.get? i = some r) (hra : r.articleId = some a)
    (hrv : r.row = some v)
    (hmulti : 2 ≤ ((labelRowsFrom 0 excel).filter
      (fun p => matchesAid p.2 (some (PyVal.str a)))).length)
    (hmax : ∀ (j : Nat) (s : RefRow), excel.get? j = some s → j ≠ i →
      s.articleId = some a → ∀ w : Int, s.row = some w → w < v) :
    _match_by_review_status doc excel
      = some (dictUpdate doc (rowToUpdate r), dictUpdate doc (rowToUpdate r)) := by
  unfold _match_by_review_status
  simp only [hid]
  have hidx : idxmaxRow ((labelRowsFrom 0 excel).filter
      (fun p => matchesAid p.2 (some (PyVal.str a)))) = some (i, v) := by
    apply idxmaxRow_unique
    · exact List.Nodup.sublist
        ((List.filter_sublist _).map Prod.fst)
        (labelRowsFrom_fst_nodup excel 0)
    · have hmem := labelRowsFrom_mem_of_get? excel 0 i r hr
      rw [Nat.zero_add] at hmem
      exact List.mem_filter.mpr ⟨hmem, by simp [matchesAid, hra]⟩
    · exact hrv
    · intro q hq hqi w hw
      obtain ⟨hq1, hq2⟩ := List.mem_filter.mp hq
      rcases q with ⟨qi, qr⟩
      obtain ⟨hle, hget⟩ := labelRowsFrom_get? excel 0 qi qr hq1
      have hqa : qr.articleId = some a := by
        cases hqa : qr.articleId with
        | none => simp [matchesAid, hqa] at hq2
        | some s => simp [matchesAid, hqa] at hq2; rw [hq2]
      rw [Nat.sub_zero] at hget
      exact hmax qi qr hget hqi hqa w hw
  rw [hidx]
  simp only [hr]

/-- Witness for C2 at the spec's scenario: rows `(id="A1", ordinal=1,
status="pending")` and `(id="A1", ordinal=2, status="approved")`; a
document with identifier `"A1"` reconciles to the approved row, so its
status is `"approved"`. -/
theorem c2_witness :
    _match_by_review_status [("_id", PyVal.str "A1")]
        [RefRow.mk (some 1) (some "A1") (some "R1") (some "pending") none none,
         RefRow.mk (some 2) (some "A1") (some "R1") (some "approved") none none]
      = some
        (dictUpdate [("_id", PyVal.str "A1")]
          (rowToUpdate (RefRow.mk (some 2) (some "A1") (some "R1")
            (some "approved") none none)),
         dictUpdate [("_id", PyVal.str "A1")]
          (rowToUpdate (RefRow.mk (some 2) (some "A1") (some "R1")
            (some "approved") none none))) ∧
    dictGet (dictUpdate [("_id", PyVal.str "A1")]
        (rowToUpdate (RefRow.mk (some 2) (some "A1") (some "R1")
          (some "approved") none none))) "status"
      = some (PyVal.str "approved") :=
  ⟨c2_max_ordinal_join [("_id", PyVal.str "A1")]
    [RefRow.mk (some 1) (some "A1") (some "R1") (some "pending") none none,
     RefRow.mk (some 2) (some "A1") (some "R1") (some "approved") none none]
    "A1" 1
    (RefRow.mk (some 2) (some "A1") (some "R1") (some "approved") none none)
    2 rfl rfl rfl rfl (by decide)
    (by
      intro j s hjs hji hsa w hw
      match j with
      | 0 =>
        have hs : s = RefRow.mk (some 1) (some "A1") (some "R1")
            (some "pending") none none := by simpa using hjs.symm
        subst hs
        have : w = 1 := by simpa using hw.symm
        subst this
        decide
      | 1 => exact absurd rfl hji
      | Nat.succ (Nat.succ n) => simp [List.get?] at hjs),
   rfl⟩

/-!
## Claim C8 — schema stability and agreement with the first record
-/

/-- C8: on a configured, freshly loaded source whose first `getSchema()`
call succeeds, a repeated `getSchema()` returns the same memoized ordered
key list, and that list is exactly the ordered key list of the single
record in the first batch produced by `getDataBatch(1)`. -/
theorem c8_schema_stable (s : SourceState) (w : World) (s1 : SourceState)
    (sch : List String)
    (hdocs : s.docs = none) (hschema : s.schema = none)
    (hok : getSchema s w = Except.ok (s1, some sch)) :
    getSchema s1 w = Except.ok (s1, some sch) ∧
    ∃ rec : Dict, ((getDataBatchRun s w 1 1).2).yielded = [[rec]] ∧
      rec.map Prod.fst = sch := by
  unfold getSchema _check_args _load_schema _load_data at hok
  cases ha : s.args with
  | none => rw [ha] at hok; exact absurd hok (by simp)
  | some a =>
    simp only [ha, hschema, hdocs] at hok
    cases hresp : _get_nested_data w.apiResponse ["response", "docs"] with
    | none => simp only [hresp] at hok; exact absurd hok (by simp)
    | some dv =>
      simp only [hresp] at hok
      cases dv with
      | list ds =>
        cases ds with
        | nil => simp at hok
        | cons d0 rest =>
          simp only [List.get?] at hok
          cases hrec : reconcileE d0 w.excelData with
          | error e => simp only [hrec] at hok; exact absurd hok (by simp)
          | ok rec0 =>
            simp only [hrec, Except.ok.injEq, Prod.mk.injEq] at hok
            obtain ⟨hs1, hsch⟩ := hok
            have hsch2 : rec0.map Prod.fst = sch := by
              injection hsch
            constructor
            · unfold getSchema _check_args _load_schema
              rw [← hs1]
              simp only [ha, hsch2]
            · refine ⟨rec0, ?_, hsch2⟩
              unfold getDataBatchRun _check_args _load_data
              simp only [ha, hdocs, hresp, List.get?, hrec]
              simp [batchLoop, collectBatch, hrec, BatchOutcome.consYield,
                BatchOutcome.yielded]
      | str v => simp at hok
      | int v => simp at hok
      | bool v => simp at hok
      | null => simp at hok
      | nan => simp at hok
      | dict d => simp at hok

/-- Witness for C8 at a concrete one-document world. -/
theorem c8_witness :
    (SourceState.mk (some (Args.mk "api" "ref")) none none).docs = none ∧
    (SourceState.mk (some (Args.mk "api" "ref")) none none).schema = none ∧
    getSchema (SourceState.mk (some (Args.mk "api" "ref")) none none)
        (World.mk
          (PyVal.dict [("response", PyVal.dict
            [("docs", PyVal.list [PyVal.dict [("_id", PyVal.str "A1")]])])])
          [RefRow.mk (some 1) (some "A1") (some "R1") (some "pending")
            none none])
      = Except.ok
        (SourceState.mk (some (Args.mk "api" "ref"))
          (some [PyVal.dict [("_id", PyVal.str "A1")]])
          (some ["_id", "row", "article_id", "reference_id", "status",
                 "date_completed", "reviewer"]),
         some ["_id", "row", "article_id", "reference_id", "status",
               "date_completed", "reviewer"]) ∧
    (getSchema
        (SourceState.mk (some (Args.mk "api" "ref"))
          (some [PyVal.dict [("_id", PyVal.str "A1")]])
          (some ["_id", "row", "article_id", "reference_id", "status",
                 "date_completed", "reviewer"]))
        (World.mk
          (PyVal.dict [("response", PyVal.dict
            [("docs", PyVal.list [PyVal.dict [("_id", PyVal.str "A1")]])])])
          [RefRow.mk (some 1) (some "A1") (some "R1") (some "pending")
            none none])
      = Except.ok
        (SourceState.mk (some (Args.mk "api" "ref"))
          (some [PyVal.dict [("_id", PyVal.str "A1")]])
          (some ["_id", "row", "article_id", "reference_id", "status",
                 "date_completed", "reviewer"]),
         some ["_id", "row", "article_id", "reference_id", "status",
               "date_completed", "reviewer"]) ∧
     ∃ rec : Dict,
       ((getDataBatchRun (SourceState.mk (some (Args.mk "api" "ref")) none none)
          (World.mk
            (PyVal.dict [("response", PyVal.dict
              [("docs", PyVal.list [PyVal.dict [("_id", PyVal.str "A1")]])])])
            [RefRow.mk (some 1) (some "A1") (some "R1") (some "pending")
              none none]) 1 1).2).yielded = [[rec]] ∧
       rec.map Prod.fst
         = ["_id", "row", "article_id", "reference_id", "status",
            "date_completed", "reviewer"]) :=
  ⟨rfl, rfl, rfl, c8_schema_stable _ _ _ _ rfl rfl rfl⟩

/-!
## Claim C1 — the batch size law
-/

theorem gen_ok_cons (d : PyVal) (rest : List PyVal) (excel : List RefRow)
    (recs : List Dict)
    (h : _docs_generator (d :: rest) excel = Except.ok recs) :
    ∃ r rs, reconcileE d excel = Except.ok r ∧
      _docs_generator rest excel = Except.ok rs ∧ recs = r :: rs := by
  unfold _docs_generator at h
  cases hr : reconcileE d excel with
  | error e => rw [hr] at h; exact absurd h (by simp)
  | ok r =>
    rw [hr] at h
    cases hg : _docs_generator rest excel with
    | error e => rw [hg] at h; exact absurd h (by simp)
    | ok rs =>
      rw [hg] at h
      injection h with h'
      exact ⟨r, rs, rfl, rfl, h'.symm⟩

theorem gen_ok_length (excel : List RefRow) :
    ∀ (docs : List PyVal) (recs : List Dict),
      _docs_generator docs excel = Except.ok recs →
      recs.length = docs.length := by
  intro docs
  induction docs with
  | nil =>
    intro recs h
    unfold _docs_generator at h
    injection h with h'
    rw [← h']
    rfl
  | cons d rest ih =>
    intro recs h
    obtain ⟨r, rs, _, hg, hrecs⟩ := gen_ok_cons d rest excel recs h
    subst hrecs
    simp [ih rs hg]

theorem gen_ok_drop (excel : List RefRow) :
    ∀ (k : Nat) (ds : List PyVal) (recs : List Dict),
      _docs_generator ds excel = Except.ok recs →
      _docs_generator (ds.drop k) excel = Except.ok (recs.drop k) := by
  intro k
  induction k with
  | zero => intro ds recs h; simpa using h
  | succ m ih =>
    intro ds recs h
    cases ds with
    | nil =>
      unfold _docs_generator at h
      injection h with h'
      rw [← h']
      rfl
    | cons d rest =>
      obtain ⟨r, rs, _, hg, hrecs⟩ := gen_ok_cons d rest excel recs h
      subst hrecs
      simpa using ih rest rs hg

theorem collectBatch_sim (excel : List RefRow) :
    ∀ (n : Nat) (ds : List PyVal) (recs : List Dict),
      _docs_generator ds excel = Except.ok recs →
      collectBatch excel n ds =
        if n ≤ ds.length then Except.ok (recs.take n, ds.drop n, false)
        else Except.ok (recs, [], true) := by
  intro n
  induction n with
  | zero =>
    intro ds recs h
    simp [collectBatch]
  | succ m ih =>
    intro ds recs h
    cases ds with
    | nil =>
      unfold _docs_generator at h
      injection h with h'
      subst h'
      simp [collectBatch]
    | cons d rest =>
      obtain ⟨r, rs, hr, hg, hrecs⟩ := gen_ok_cons d rest excel recs h
      subst hrecs
      have hsim := ih rest rs hg
      by_cases hle : m ≤ rest.length
      · have h1 : m + 1 ≤ (d :: rest).length := by
          simpa using Nat.succ_le_succ hle
        rw [if_pos h1]
        simp only [collectBatch, hr, hsim, if_pos hle]
        simp
      · have h1 : ¬ (m + 1 ≤ (d :: rest).length) := by
          simp only [List.length_cons]
          omega
        rw [if_neg h1]
        simp only [collectBatch, hr, hsim, if_neg hle]

theorem batchLoop_finished (excel : List RefRow) (B : Int) (hB : 1 ≤ B) :
    ∀ (fuel : Nat) (ds : List PyVal) (recs : List Dict),
      _docs_generator ds excel = Except.ok recs →
      recs.length + 1 ≤ fuel →
      ∃ ys : List (List Dict),
        batchLoop excel B fuel ds = (BatchOutcome.finished ys, []) ∧
        ys.length = (recs.length + B.toNat - 1) / B.toNat ∧
        (∀ b ∈ ys, b ≠ []) ∧
        (∀ i : Nat, i + 1 < ys.length →
          (ys.get? i).map List.length = some B.toNat) ∧
        (ys = [] → recs = []) ∧
        (ys ≠ [] → ys.getLast?.map List.length =
          some (if recs.length % B.toNat = 0 then B.toNat
                else recs.length % B.toNat)) := by
  have hb : 1 ≤ B.toNat := by omega
  intro fuel
  induction fuel with
  | zero => intro ds recs _ hf; omega
  | succ f ih =>
    intro ds recs hgen hf
    have hlen : recs.length = ds.length := gen_ok_length excel ds recs hgen
    by_cases hbig : B.toNat ≤ ds.length
    · -- a full batch is collected and the loop continues
      have hcoll := collectBatch_sim excel B.toNat ds recs hgen
      rw [if_pos hbig] at hcoll
      have hgen' := gen_ok_drop excel B.toNat ds recs hgen
      have hlen' : (recs.drop B.toNat).length = recs.length - B.toNat :=
        List.length_drop _ _
      obtain ⟨ys, hys, hyslen, hysne, hysmid, hysnil, hyslast⟩ :=
        ih (ds.drop B.toNat) (recs.drop B.toNat) hgen' (by omega)
      refine ⟨recs.take B.toNat :: ys, ?_, ?_, ?_, ?_, ?_, ?_⟩
      · simp only [batchLoop, hcoll, hys, BatchOutcome.consYield]
        simp
      · simp only [List.length_cons, hyslen, hlen']
        have e1 : recs.length - B.toNat + B.toNat - 1 = recs.length - 1 := by
          omega
        have e2 : recs.length + B.toNat - 1 = (recs.length - 1) + B.toNat := by
          omega
        rw [e1, e2, Nat.add_div_right _ (by omega)]
      · intro bb hbb
        rcases List.mem_cons.mp hbb with h | h
        · subst h
          have : (recs.take B.toNat).length = B.toNat := by
            rw [List.length_take]
            omega
        
          intro hnilb
          rw [hnilb] at this
          simp at this
          omega
        · exact hysne bb h
      · intro i hi
        match i with
        | 0 =>
          simp only [List.get?, Option.map_some']
          rw [List.length_take]
          congr 1
          omega
        | Nat.succ j =>
          have hj : j + 1 < ys.length := by simpa using hi
          simpa using hysmid j hj
      · intro h
        cases h
      · intro _
        by_cases hys0 : ys = []
        · subst hys0
          have hd : recs.drop B.toNat = [] := hysnil rfl
          have hdl : recs.length - B.toNat = 0 := by
            rw [← hlen']
            rw [hd]
            rfl
          have hNb : recs.length = B.toNat := by omega
          simp only [List.getLast?_singleton, Option.map_some']
          rw [List.length_take, hNb]
          simp [Nat.mod_self]
        · obtain ⟨y, t, hyt⟩ := List.exists_cons_of_ne_nil hys0
          subst hyt
          rw [List.getLast?_cons_cons]
          have := hyslast (by simp)
          rw [this]
          have hmod : (recs.drop B.toNat).length % B.toNat
              = recs.length % B.toNat := by
            rw [hlen']
            have : recs.length = (recs.length - B.toNat) + B.toNat := by omega
            conv_rhs => rw [this]
            rw [Nat.add_mod_right]
          rw [hmod]
    · -- the stream runs dry inside this batch
      have hcoll := collectBatch_sim excel B.toNat ds recs hgen
      rw [if_neg hbig] at hcoll
      by_cases hrecs : recs = []
      · subst hrecs
        refine ⟨[], ?_, ?_, by simp, by simp, fun _ => rfl, by simp⟩
        · simp [batchLoop, hcoll]
        · simp only [List.length_nil]
          rw [Nat.div_eq_of_lt (by omega)]
      · have hne : recs ≠ [] := hrecs
        have hpos : 1 ≤ recs.length := by
          cases recs with
          | nil => exact absurd rfl hne
          | cons x t => simp
        have hsmall : recs.length < B.toNat := by omega
        refine ⟨[recs], ?_, ?_, ?_, by simp, ?_, ?_⟩
        · have hnotempty : recs.isEmpty = false := by
            cases recs with
            | nil => exact absurd rfl hne
            | cons x t => rfl
          simp [batchLoop, hcoll, hnotempty]
        · simp only [List.length_singleton]
          have hdiv : (recs.length + B.toNat - 1) / B.toNat = 1 :=
            @Nat.div_eq_of_lt_le 1 B.toNat (recs.length + B.toNat - 1)
              (by omega) (by omega)
          rw [hdiv]
        · intro bb hbb
          rcases List.mem_cons.mp hbb with h | h
          · subst h; exact hne
          · simp at h
        · intro h
          cases h
        · intro _
          simp only [List.getLast?_singleton, Option.map_some']
          rw [Nat.mod_eq_of_lt hsmall]
          have hz : ¬ recs.length = 0 := by omega
          simp [hz]

/-- C1: on a configured source whose loaded documents reconcile to `N`
records, `getDataBatch(B)` with `B ≥ 1` terminates after yielding exactly
`ceil(N/B)` batches; every batch except possibly the last has exactly `B`
records, the last has `N mod B` records when that is nonzero and `B`
otherwise, no yielded batch is empty, and when `N = 0` no batch is yielded
at all. -/
theorem c1_batch_size_law (s : SourceState) (w : World) (ds : List PyVal)
    (recs : List Dict) (B : Int)
    (hargs : s.args.isSome = true) (hdocs : s.docs = some ds)
    (hgen : _docs_generator ds w.excelData = Except.ok recs) (hB : 1 ≤ B) :
    ∃ ys : List (List Dict),
      (getDataBatchRun s w B (recs.length + 1)).2 = BatchOutcome.finished ys ∧
      ys.length = (recs.length + B.toNat - 1) / B.toNat ∧
      (∀ b ∈ ys, b ≠ []) ∧
      (∀ i : Nat, i + 1 < ys.length →
        (ys.get? i).map List.length = some B.toNat) ∧
      (ys ≠ [] → ys.getLast?.map List.length =
        some (if recs.length % B.toNat = 0 then B.toNat
              else recs.length % B.toNat)) ∧
      (recs = [] → ys = []) := by
  obtain ⟨a, ha⟩ := Option.isSome_iff_exists.mp hargs
  obtain ⟨ys, hrun, hlen, hne, hmid, hnil, hlast⟩ :=
    batchLoop_finished w.excelData B hB (recs.length + 1) ds recs hgen
      (Nat.le_refl _)
  refine ⟨ys, ?_, hlen, hne, hmid, hlast, ?_⟩
  · unfold getDataBatchRun _check_args _load_data
    simp only [ha, hdocs, Option.getD_some, hrun]
  · intro hrecs
    subst hrecs
    have hb : 1 ≤ B.toNat := by omega
    have h0 : ys.length = 0 := by
      rw [hlen]
      simp only [List.length_nil, Nat.zero_add]
      exact Nat.div_eq_of_lt (by omega)
    exact List.length_eq_zero.mp h0

/-- Witness for C1: five documents and batch size 2 give three batches of
sizes 2, 2, 1 (the spec scenario). -/
theorem c1_witness :
    (SourceState.mk (some (Args.mk "api" "ref"))
        (some (List.replicate 5 (PyVal.dict [("_id", PyVal.str "A1")])))
        none).args.isSome = true ∧
    _docs_generator
        (List.replicate 5 (PyVal.dict [("_id", PyVal.str "A1")]))
        [RefRow.mk (some 1) (some "A1") (some "R1") (some "pending")
          none none]
      = Except.ok (List.replicate 5
        [("_id", PyVal.str "A1"), ("row", PyVal.int 1),
         ("article_id", PyVal.str "A1"), ("reference_id", PyVal.str "R1"),
         ("status", PyVal.str "pending"), ("date_completed", PyVal.nan),
         ("reviewer", PyVal.nan)]) ∧
    (∃ ys : List (List Dict),
      (getDataBatchRun
          (SourceState.mk (some (Args.mk "api" "ref"))
            (some (List.replicate 5 (PyVal.dict [("_id", PyVal.str "A1")])))
            none)
          (World.mk PyVal.null
            [RefRow.mk (some 1) (some "A1") (some "R1") (some "pending")
              none none])
          2
          ((List.replicate 5
            ([("_id", PyVal.str "A1"), ("row", PyVal.int 1),
              ("article_id", PyVal.str "A1"), ("reference_id", PyVal.str "R1"),
              ("status", PyVal.str "pending"), ("date_completed", PyVal.nan),
              ("reviewer", PyVal.nan)] : Dict)).length + 1)).2
        = BatchOutcome.finished ys ∧
      ys.length = ((List.replicate 5
          ([("_id", PyVal.str "A1"), ("row", PyVal.int 1),
            ("article_id", PyVal.str "A1"), ("reference_id", PyVal.str "R1"),
            ("status", PyVal.str "pending"), ("date_completed", PyVal.nan),
            ("reviewer", PyVal.nan)] : Dict)).length + (2 : Int).toNat - 1)
          / (2 : Int).toNat ∧
      (∀ b ∈ ys, b ≠ []) ∧
      (∀ i : Nat, i + 1 < ys.length →
        (ys.get? i).map List.length = some (2 : Int).toNat) ∧
      (ys ≠ [] → ys.getLast?.map List.length =
        some (if (List.replicate 5
            ([("_id", PyVal.str "A1"), ("row", PyVal.int 1),
              ("article_id", PyVal.str "A1"), ("reference_id", PyVal.str "R1"),
              ("status", PyVal.str "pending"), ("date_completed", PyVal.nan),
              ("reviewer", PyVal.nan)] : Dict)).length % (2 : Int).toNat = 0
          then (2 : Int).toNat
          else (List.replicate 5
            ([("_id", PyVal.str "A1"), ("row", PyVal.int 1),
              ("article_id", PyVal.str "A1"), ("reference_id", PyVal.str "R1"),
              ("status", PyVal.str "pending"), ("date_completed", PyVal.nan),
              ("reviewer", PyVal.nan)] : Dict)).length % (2 : Int).toNat)) ∧
      ((List.replicate 5
          ([("_id", PyVal.str "A1"), ("row", PyVal.int 1),
            ("article_id", PyVal.str "A1"), ("reference_id", PyVal.str "R1"),
            ("status", PyVal.str "pending"), ("date_completed", PyVal.nan),
            ("reviewer", PyVal.nan)] : Dict))
          = ([] : List Dict) → ys = [])) :=
  ⟨rfl, by rfl,
   c1_batch_size_law
    (SourceState.mk (some (Args.mk "api" "ref"))
      (some (List.replicate 5 (PyVal.dict [("_id", PyVal.str "A1")]))) none)
    (World.mk PyVal.null
      [RefRow.mk (some 1) (some "A1") (some "R1") (some "pending") none none])
    (List.replicate 5 (PyVal.dict [("_id", PyVal.str "A1")]))
    (List.replicate 5
      [("_id", PyVal.str "A1"), ("row", PyVal.int 1),
       ("article_id", PyVal.str "A1"), ("reference_id", PyVal.str "R1"),
       ("status", PyVal.str "pending"), ("date_completed", PyVal.nan),
       ("reviewer", PyVal.nan)])
    2 rfl rfl (by rfl) (by decide)⟩

/-!
## Claim C7 — flattening an already-flat mapping
-/

theorem pySplit_of_dot_free (s : String) (h : ¬ '.' ∈ s.data) :
    pySplit s = [s] := by
  unfold pySplit
  show ((s.data.splitOnP (fun c => c == '.')).map String.mk) = [s]
  rw [List.splitOnP_eq_single]
  · rfl
  · intro x hx hbeq
    rw [beq_iff_eq] at hbeq
    subst hbeq
    exact h hx

theorem dictGet_of_mem_nodup (d : Dict) (hnd : (d.map Prod.fst).Nodup) :
    ∀ p ∈ d, dictGet d p.1 = some p.2 := by
  induction d with
  | nil => intro p hp; simp at hp
  | cons q rest ih =>
    intro p hp
    rw [List.map_cons, List.nodup_cons] at hnd
    rcases q with ⟨qk, qv⟩
    rcases List.mem_cons.mp hp with h | h
    · subst h
      simp [dictGet]
    · have hne : ¬ qk = p.1 := by
        intro he
        exact hnd.1 (List.mem_map.mpr ⟨p, h, he.symm⟩)
      rcases p with ⟨pk, pv⟩
      simp only [dictGet, if_neg hne]
      exact ih hnd.2 (pk, pv) h

theorem flattenRound_cons_fail (d : Dict) (k : String) (ks : List String)
    (acc : Dict)
    (hres : _get_nested_data (PyVal.dict d) (pySplit k) = none) :
    flattenRound d (k :: ks) acc = none := by
  simp [flattenRound, hres]

theorem flattenRound_cons_scalar (d : Dict) (k : String) (ks : List String)
    (acc : Dict) (v : PyVal)
    (hres : _get_nested_data (PyVal.dict d) (pySplit k) = some v)
    (hnd : v.isDict = false) :
    flattenRound d (k :: ks) acc = flattenRound d ks (dictInsert acc k v) := by
  cases v <;> simp_all [flattenRound, PyVal.isDict]

theorem flattenRound_cons_dict (d : Dict) (k : String) (ks : List String)
    (acc : Dict) (dd : List (String × PyVal))
    (hres : _get_nested_data (PyVal.dict d) (pySplit k)
      = some (PyVal.dict dd)) :
    flattenRound d (k :: ks) acc =
      (flattenRound d ks acc).map
        (fun pr => (pr.1, dd.map (fun p => k ++ "." ++ p.1) ++ pr.2)) := by
  simp only [flattenRound, hres]
  cases flattenRound d ks acc with
  | none => rfl
  | some pr => rfl

theorem flattenRound_flat (d : Dict) :
    ∀ (suffix : Dict) (acc : Dict),
      (∀ p ∈ suffix, dictGet d p.1 = some p.2) →
      (∀ p ∈ suffix, (p.2).isDict = false) →
      (∀ p ∈ suffix, ¬ '.' ∈ (p.1).data) →
      ((suffix.map Prod.fst).Nodup) →
      (∀ p ∈ suffix, ¬ acc.any (fun q => q.1 = p.1)) →
      flattenRound d (suffix.map Prod.fst) acc = some (acc ++ suffix, []) := by
  intro suffix
  induction suffix with
  | nil =>
    intro acc _ _ _ _ _
    simp [flattenRound]
  | cons p rest ih =>
    intro acc hget hfl hdf hnd hfresh
    rcases p with ⟨k, v⟩
    rw [List.map_cons]
    have hg : _get_nested_data (PyVal.dict d) (pySplit k) = some v := by
      rw [pySplit_of_dot_free k (hdf (k, v) (List.mem_cons_self _ _))]
      simp [_get_nested_data, hget (k, v) (List.mem_cons_self _ _)]
    rw [flattenRound_cons_scalar d k _ acc v hg
      (hfl (k, v) (List.mem_cons_self _ _))]
    have hins : dictInsert acc k v = acc ++ [(k, v)] := by
      unfold dictInsert
      rw [if_neg]
      simpa using hfresh (k, v) (List.mem_cons_self _ _)
    rw [hins]
    rw [List.map_cons, List.nodup_cons] at hnd
    rw [ih (acc ++ [(k, v)])
      (fun q hq => hget q (List.mem_cons_of_mem _ hq))
      (fun q hq => hfl q (List.mem_cons_of_mem _ hq))
      (fun q hq => hdf q (List.mem_cons_of_mem _ hq))
      hnd.2
      ?fresh]
    · rw [List.append_assoc]
      rfl
    · intro q hq
      rw [List.any_append]
      simp only [Bool.or_eq_true, not_or]
      refine ⟨by simpa using hfresh q (List.mem_cons_of_mem _ hq), ?_⟩
      simp only [List.any_cons, List.any_nil, Bool.or_false,
        decide_eq_true_eq]
      intro he
      exact hnd.1 (List.mem_map.mpr ⟨q, hq, he.symm⟩)

/-- C7 counterexample: the mapping `{"a.b": 1}` is already flat (its one
value is a scalar), yet flattening raises (`_get_nested_data` walks
`doc["a"]["b"]` and hits a `KeyError`) instead of returning the mapping
unchanged. -/
theorem c7_counterexample :
    (∀ p ∈ ([("a.b", PyVal.int 1)] : Dict), (p.2).isDict = false) ∧
    _flatten_dict [("a.b", PyVal.int 1)] = none :=
  ⟨by
    intro p hp
    rw [List.mem_singleton.mp hp]
    rfl,
   rfl⟩

/-- C7 amended: flattening an already-flat mapping whose keys are dot-free
(and distinct, as dict keys are) returns it unchanged — even with the same
key order. -/
theorem c7_flatten_flat_identity (d : Dict)
    (hflat : ∀ p ∈ d, (p.2 : PyVal).isDict = false)
    (hkeys : ∀ p ∈ d, ¬ '.' ∈ (p.1 : String).data)
    (hnd : (d.map Prod.fst).Nodup) :
    _flatten_dict d = some d := by
  unfold _flatten_dict
  simp only [flattenLoop]
  rw [flattenRound_flat d d []
    (dictGet_of_mem_nodup d hnd) hflat hkeys hnd
    (fun p _ => by simp)]
  simp

/-- Witness for C7 at a concrete flat mapping. -/
theorem c7_witness :
    (∀ p ∈ ([("_id", PyVal.str "A1"), ("n", PyVal.int 7),
             ("tags", PyVal.list [PyVal.str "x"])] : Dict),
      (p.2).isDict = false) ∧
    (∀ p ∈ ([("_id", PyVal.str "A1"), ("n", PyVal.int 7),
             ("tags", PyVal.list [PyVal.str "x"])] : Dict),
      ¬ '.' ∈ (p.1 : String).data) ∧
    (([("_id", PyVal.str "A1"), ("n", PyVal.int 7),
       ("tags", PyVal.list [PyVal.str "x"])] : Dict).map Prod.fst).Nodup ∧
    _flatten_dict [("_id", PyVal.str "A1"), ("n", PyVal.int 7),
       ("tags", PyVal.list [PyVal.str "x"])]
      = some [("_id", PyVal.str "A1"), ("n", PyVal.int 7),
              ("tags", PyVal.list [PyVal.str "x"])] :=
  ⟨by
    intro p hp
    rcases List.mem_cons.mp hp with h | hp'
    · rw [h]; rfl
    · rcases List.mem_cons.mp hp' with h | hp''
      · rw [h]; rfl
      · rw [List.mem_singleton.mp hp'']; rfl,
   by
    intro p hp
    rcases List.mem_cons.mp hp with h | hp'
    · rw [h]; decide
    · rcases List.mem_cons.mp hp' with h | hp''
      · rw [h]; decide
      · rw [List.mem_singleton.mp hp'']; decide,
   by decide,
   c7_flatten_flat_identity _
    (by
      intro p hp
      rcases List.mem_cons.mp hp with h | hp'
      · rw [h]; rfl
      · rcases List.mem_cons.mp hp' with h | hp''
        · rw [h]; rfl
        · rw [List.mem_singleton.mp hp'']; rfl)
    (by
      intro p hp
      rcases List.mem_cons.mp hp with h | hp'
      · rw [h]; decide
      · rcases List.mem_cons.mp hp' with h | hp''
        · rw [h]; decide
        · rw [List.mem_singleton.mp hp'']; decide)
    (by decide)⟩

/-!
## Claim C3 — flattening reaches exactly the leaves (dot-free documents)

Supporting lemmas: path strings, depth bounds, well-formedness accessors,
frontier bookkeeping.
-/

theorem isDict_exists {v : PyVal} (h : v.isDict = true) :
    ∃ dd, v = PyVal.dict dd := by
  cases v
  case dict d => exact ⟨d, rfl⟩
  all_goals simp [PyVal.isDict] at h

theorem isDict_false_of_not {v : PyVal} (h : ¬ v.isDict = true) :
    v.isDict = false := by
  cases hb : v.isDict
  · rfl
  · exact absurd hb h

theorem pyLeaves_scalar {v : PyVal} (h : v.isDict = false) :
    pyLeaves v = [v] := by
  cases v
  case dict d => simp [PyVal.isDict] at h
  all_goals rfl

theorem pyLeavesEntries_eq_flatten (d : List (String × PyVal)) :
    pyLeavesEntries d = (d.map (fun p => pyLeaves p.2)).flatten := by
  induction d with
  | nil => rfl
  | cons p rest ih => simp [pyLeavesEntries, ih]

theorem dictGet_mem (d : Dict) (k : String) (u : PyVal)
    (h : dictGet d k = some u) : (k, u) ∈ d := by
  induction d with
  | nil => simp [dictGet] at h
  | cons p rest ih =>
    rcases p with ⟨pk, pv⟩
    unfold dictGet at h
    by_cases hk : pk = k
    · rw [if_pos hk] at h
      injection h with h'
      subst h'
      subst hk
      exact List.mem_cons_self _ _
    · rw [if_neg hk] at h
      exact List.mem_cons_of_mem _ (ih h)

theorem pyDepthEntries_bound (d : List (String × PyVal)) (k : String)
    (w : PyVal) (h : dictGet d k = some w) : pyDepth w ≤ pyDepthEntries d := by
  induction d with
  | nil => simp [dictGet] at h
  | cons p rest ih =>
    rcases p with ⟨pk, pv⟩
    unfold dictGet at h
    by_cases hk : pk = k
    · rw [if_pos hk] at h
      injection h with h'
      subst h'
      exact le_max_left _ _
    · rw [if_neg hk] at h
      exact le_trans (ih h) (le_max_right _ _)

theorem getNested_length_le :
    ∀ (path : List String) (v w : PyVal),
      _get_nested_data v path = some w → path.length ≤ pyDepth v := by
  intro path
  induction path with
  | nil => intro v w _; simp
  | cons k ks ih =>
    intro v w h
    cases v with
    | dict d =>
      unfold _get_nested_data at h
      cases hg : dictGet d k with
      | none => rw [hg] at h; exact absurd h (by simp)
      | some u =>
        rw [hg] at h
        have h1 := ih u w h
        have h2 := pyDepthEntries_bound d k u hg
        simp only [pyDepth, List.length_cons]
        omega
    | str s => simp [_get_nested_data] at h
    | int n => simp [_get_nested_data] at h
    | bool b => simp [_get_nested_data] at h
    | null => simp [_get_nested_data] at h
    | nan => simp [_get_nested_data] at h
    | list l => simp [_get_nested_data] at h

theorem getNested_append (p q : List String) :
    ∀ v : PyVal, _get_nested_data v (p ++ q)
      = (_get_nested_data v p).bind (fun w => _get_nested_data w q) := by
  induction p with
  | nil => intro v; simp [_get_nested_data]
  | cons k ks ih =>
    intro v
    cases v with
    | dict d =>
      simp only [List.cons_append, _get_nested_data]
      cases dictGet d k with
      | none => rfl
      | some w => exact ih w
    | str s => rfl
    | int n => rfl
    | bool b => rfl
    | null => rfl
    | nan => rfl
    | list l => rfl

theorem pyWFEntries_mem (d : List (String × PyVal))
    (hwf : pyWFEntries d = true) :
    (∀ p ∈ d, ¬ '.' ∈ (p.1 : String).data ∧ pyWF p.2 = true) ∧
      (d.map Prod.fst).Nodup := by
  induction d with
  | nil => exact ⟨fun p hp => absurd hp (by simp), by simp⟩
  | cons p rest ih =>
    rcases p with ⟨k, v⟩
    unfold pyWFEntries at hwf
    simp only [Bool.and_eq_true, Bool.not_eq_true'] at hwf
    obtain ⟨⟨⟨hdot, hany⟩, hv⟩, hrest⟩ := hwf
    obtain ⟨ih1, ih2⟩ := ih hrest
    refine ⟨?_, ?_⟩
    · intro q hq
      rcases List.mem_cons.mp hq with h | h
      · subst h
        refine ⟨?_, hv⟩
        intro hmem
        have : k.data.any (fun c => c = '.') = true :=
          List.any_eq_true.mpr ⟨'.', hmem, by simp⟩
        rw [hdot] at this
        cases this
      · exact ih1 q h
    · rw [List.map_cons, List.nodup_cons]
      refine ⟨?_, ih2⟩
      intro hk
      rcases List.mem_map.mp hk with ⟨q, hq, hq1⟩
      have : rest.any (fun p => p.1 = k) = true :=
        List.any_eq_true.mpr ⟨q, hq, by simp [hq1]⟩
      rw [hany] at this
      cases this

theorem intercalate_cons_cons' (sep x y : List Char) (zs : List (List Char)) :
    List.intercalate sep (x :: y :: zs)
      = x ++ sep ++ List.intercalate sep (y :: zs) := by
  simp [List.intercalate, List.intersperse_cons_cons, List.append_assoc]

theorem intercalate_append_singleton (sep : List Char) :
    ∀ (xs : List (List Char)) (y : List Char), xs ≠ [] →
      List.intercalate sep (xs ++ [y])
        = List.intercalate sep xs ++ sep ++ y := by
  intro xs
  induction xs with
  | nil => intro y h; exact absurd rfl h
  | cons x t ih =>
    intro y _
    cases t with
    | nil =>
      simp [List.intercalate, List.intersperse_cons_cons]
    | cons x2 t2 =>
      have ih' := ih y (by simp)
      simp only [List.cons_append] at ih' ⊢
      rw [intercalate_cons_cons' sep x x2 (t2 ++ [y]), ih',
        intercalate_cons_cons' sep x x2 t2]
      simp [List.append_assoc]

theorem pySplit_dotJoin (segs : List String) (hne : segs ≠ [])
    (hdf : ∀ t ∈ segs, ¬ '.' ∈ t.data) :
    pySplit (dotJoin segs) = segs := by
  unfold pySplit dotJoin
  rw [show (String.mk (List.intercalate ['.'] (segs.map String.data))).data
      = List.intercalate ['.'] (segs.map String.data) from rfl]
  rw [List.splitOn_intercalate (segs.map String.data) '.'
    (by
      intro l hl
      rcases List.mem_map.mp hl with ⟨t, ht, he⟩
      rw [← he]
      exact hdf t ht)
    (by simpa using hne)]
  rw [List.map_map]
  exact List.map_id segs

theorem dotJoin_inj (s1 s2 : List String)
    (h1ne : s1 ≠ []) (h1df : ∀ t ∈ s1, ¬ '.' ∈ t.data)
    (h2ne : s2 ≠ []) (h2df : ∀ t ∈ s2, ¬ '.' ∈ t.data)
    (he : dotJoin s1 = dotJoin s2) : s1 = s2 := by
  have e1 := pySplit_dotJoin s1 h1ne h1df
  have e2 := pySplit_dotJoin s2 h2ne h2df
  rw [← e1, ← e2, he]

theorem dotJoin_singleton (k : String) : dotJoin [k] = k := by
  unfold dotJoin
  rw [show ([k].map String.data) = [k.data] from rfl]
  rw [show List.intercalate ['.'] [k.data] = k.data by
    simp [List.intercalate]]

theorem dotJoin_append_singleton (segs : List String) (c : String)
    (hne : segs ≠ []) :
    dotJoin (segs ++ [c]) = dotJoin segs ++ "." ++ c := by
  apply String.ext
  show (List.intercalate ['.'] ((segs ++ [c]).map String.data))
      = (dotJoin segs ++ "." ++ c).data
  rw [String.data_append, String.data_append]
  rw [show (dotJoin segs).data
      = List.intercalate ['.'] (segs.map String.data) from rfl]
  rw [show (("." : String)).data = ['.'] from rfl]
  rw [List.map_append]
  rw [show ([c].map String.data) = [c.data] from rfl]
  rw [intercalate_append_singleton ['.'] (segs.map String.data) c.data
    (by simpa using hne)]

theorem emitFlat_cons_scalar (p : List String × PyVal)
    (fr : List (List String × PyVal)) (h : p.2.isDict = false) :
    emitFlat (p :: fr) = (dotJoin p.1, p.2) :: emitFlat fr := by
  simp [emitFlat, h]

theorem emitFlat_cons_dict (p : List String × PyVal)
    (fr : List (List String × PyVal)) (h : p.2.isDict = true) :
    emitFlat (p :: fr) = emitFlat fr := by
  simp [emitFlat, h]

theorem expandFrontier_cons (p : List String × PyVal)
    (fr : List (List String × PyVal)) :
    expandFrontier (p :: fr)
      = (match p.2 with
         | PyVal.dict dd => dd.map (fun q => (p.1 ++ [q.1], q.2))
         | _ => []) ++ expandFrontier fr := by
  simp [expandFrontier]

theorem expandFrontier_cons_scalar (p : List String × PyVal)
    (fr : List (List String × PyVal)) (h : p.2.isDict = false) :
    expandFrontier (p :: fr) = expandFrontier fr := by
  rw [expandFrontier_cons]
  cases hv : p.2
  case dict d => rw [hv] at h; cases h
  all_goals simp

theorem expandFrontier_cons_dict (p : List String × PyVal)
    (fr : List (List String × PyVal)) (dd : List (String × PyVal))
    (h : p.2 = PyVal.dict dd) :
    expandFrontier (p :: fr)
      = dd.map (fun q => (p.1 ++ [q.1], q.2)) ++ expandFrontier fr := by
  rw [expandFrontier_cons, h]

theorem mem_emitFlat {fr : List (List String × PyVal)} {q : String × PyVal}
    (hq : q ∈ emitFlat fr) :
    ∃ p ∈ fr, p.2.isDict = false ∧ q = (dotJoin p.1, p.2) := by
  unfold emitFlat at hq
  rcases List.mem_map.mp hq with ⟨p, hp, he⟩
  rcases List.mem_filter.mp hp with ⟨hp1, hp2⟩
  exact ⟨p, hp1, by simpa using hp2, he.symm⟩

theorem mem_expandFrontier {fr : List (List String × PyVal)}
    {e : List String × PyVal} (he : e ∈ expandFrontier fr) :
    ∃ p ∈ fr, ∃ dd, p.2 = PyVal.dict dd ∧ ∃ q ∈ dd, e = (p.1 ++ [q.1], q.2) := by
  unfold expandFrontier at he
  rcases List.mem_flatMap.mp he with ⟨p, hp, he'⟩
  cases hv : p.2 with
  | dict dd =>
    rw [hv] at he'
    rcases List.mem_map.mp he' with ⟨q, hq, he''⟩
    exact ⟨p, hp, dd, hv, q, hq, he''.symm⟩
  | str s => rw [hv] at he'; simp at he'
  | int n => rw [hv] at he'; simp at he'
  | bool b => rw [hv] at he'; simp at he'
  | null => rw [hv] at he'; simp at he'
  | nan => rw [hv] at he'; simp at he'
  | list l => rw [hv] at he'; simp at he'

theorem emit_expand_leaves_perm :
    ∀ fr : List (List String × PyVal),
      ((emitFlat fr).map Prod.snd ++
        ((expandFrontier fr).map (fun p => pyLeaves p.2)).flatten).Perm
        ((fr.map (fun p => pyLeaves p.2)).flatten) := by
  intro fr
  induction fr with
  | nil => simp [emitFlat, expandFrontier]
  | cons p rest ih =>
    by_cases hd : p.2.isDict = true
    · obtain ⟨dd, hdd⟩ := isDict_exists hd
      rw [emitFlat_cons_dict p rest hd,
        expandFrontier_cons_dict p rest dd hdd]
      rw [List.map_cons, List.flatten_cons, hdd]
      rw [List.map_append, List.flatten_append]
      have hch : (((dd.map (fun q => (p.1 ++ [q.1], q.2))).map
          (fun p => pyLeaves p.2)).flatten) = pyLeavesEntries dd := by
        rw [List.map_map, pyLeavesEntries_eq_flatten]
        rfl
      rw [hch]
      show ((emitFlat rest).map Prod.snd ++
        (pyLeavesEntries dd ++
          ((expandFrontier rest).map (fun p => pyLeaves p.2)).flatten)).Perm
        (pyLeaves (PyVal.dict dd) ++ (rest.map (fun p => pyLeaves p.2)).flatten)
      rw [show pyLeaves (PyVal.dict dd) = pyLeavesEntries dd from rfl]
      have hswap : ∀ (A B C : List PyVal), (A ++ (B ++ C)).Perm (B ++ (A ++ C)) := by
        intro A B C
        rw [← List.append_assoc, ← List.append_assoc]
        exact List.Perm.append_right C List.perm_append_comm
      exact (hswap _ _ _).trans (List.Perm.append_left _ ih)
    · have hd' : p.2.isDict = false := isDict_false_of_not hd
      rw [emitFlat_cons_scalar p rest hd',
        expandFrontier_cons_scalar p rest hd']
      rw [List.map_cons, List.map_cons, List.flatten_cons,
        pyLeaves_scalar hd']
      show (p.2 :: ((emitFlat rest).map Prod.snd ++
        ((expandFrontier rest).map (fun p => pyLeaves p.2)).flatten)).Perm
        ([p.2] ++ (rest.map (fun p => pyLeaves p.2)).flatten)
      rw [List.singleton_append]
      exact ih.cons p.2

theorem mem_expandFrontier_fst {fr : List (List String × PyVal)}
    {s : List String} (hs : s ∈ (expandFrontier fr).map Prod.fst) :
    ∃ p ∈ fr, ∃ c, s = p.1 ++ [c] := by
  rcases List.mem_map.mp hs with ⟨e, he, hef⟩
  obtain ⟨p, hp, dd, _, q, hq, he'⟩ := mem_expandFrontier he
  refine ⟨p, hp, q.1, ?_⟩
  rw [← hef, he']

theorem expandFrontier_nodup (L : Nat) :
    ∀ (fr : List (List String × PyVal)),
      (∀ p ∈ fr, p.1.length = L) →
      (∀ p ∈ fr, pyWF p.2 = true) →
      ((fr.map Prod.fst).Nodup) →
      ((expandFrontier fr).map Prod.fst).Nodup := by
  intro fr
  induction fr with
  | nil => intro _ _ _; simp [expandFrontier]
  | cons p rest ih =>
    intro hlen hwf hnd
    rw [List.map_cons, List.nodup_cons] at hnd
    by_cases hd : p.2.isDict = true
    · obtain ⟨dd, hdd⟩ := isDict_exists hd
      rw [expandFrontier_cons_dict p rest dd hdd, List.map_append]
      rw [List.nodup_append]
      have hwfdd : pyWFEntries dd = true := by
        have := hwf p (List.mem_cons_self _ _)
        rw [hdd] at this
        exact this
      obtain ⟨_, hddnd⟩ := pyWFEntries_mem dd hwfdd
      refine ⟨?_, ih (fun q hq => hlen q (List.mem_cons_of_mem _ hq))
        (fun q hq => hwf q (List.mem_cons_of_mem _ hq)) hnd.2, ?_⟩
      · rw [List.map_map]
        apply List.Nodup.map_on
        · intro q1 h1 q2 h2 he
          simp only [Function.comp] at he
          have hk := List.append_cancel_left he
          have hk' : q1.1 = q2.1 := by injection hk
          exact List.inj_on_of_nodup_map hddnd h1 h2 hk'
        · exact List.Nodup.of_map _ hddnd
      · intro s hs1 hs2
        rcases List.mem_map.mp hs1 with ⟨e, he, hef⟩
        rcases List.mem_map.mp he with ⟨q, _, he2⟩
        obtain ⟨p', hp', c', hs'⟩ := mem_expandFrontier_fst hs2
        have hfst : s = p.1 ++ [q.1] := by
          rw [← hef, ← he2]
        have hlenp : p.1.length = L := hlen p (List.mem_cons_self _ _)
        have hlenp' : p'.1.length = L := hlen p' (List.mem_cons_of_mem _ hp')
        have heq : p.1 = p'.1 := by
          have : p.1 ++ [q.1] = p'.1 ++ [c'] := by rw [← hfst, ← hs']
          exact (List.append_inj this (by omega)).1
        exact hnd.1 (List.mem_map.mpr ⟨p', hp', heq.symm⟩)
    · have hd' : p.2.isDict = false := isDict_false_of_not hd
      rw [expandFrontier_cons_scalar p rest hd']
      exact ih (fun q hq => hlen q (List.mem_cons_of_mem _ hq))
        (fun q hq => hwf q (List.mem_cons_of_mem _ hq)) hnd.2

theorem flattenRound_frontier (doc : Dict) :
    ∀ (fr : List (List String × PyVal)) (acc : Dict),
      (∀ p ∈ fr, _get_nested_data (PyVal.dict doc) p.1 = some p.2) →
      (∀ p ∈ fr, segsOK p.1) →
      ((fr.map Prod.fst).Nodup) →
      (∀ p ∈ fr, ∀ q ∈ acc, q.1 ≠ dotJoin p.1) →
      flattenRound doc (fr.map (fun p => dotJoin p.1)) acc
        = some (acc ++ emitFlat fr,
            (expandFrontier fr).map (fun p => dotJoin p.1)) := by
  intro fr
  induction fr with
  | nil =>
    intro acc _ _ _ _
    simp [flattenRound, emitFlat, expandFrontier]
  | cons p rest ih =>
    intro acc hres hok hnd hfresh
    rcases p with ⟨segs, v⟩
    have hsOK := hok (segs, v) (List.mem_cons_self _ _)
    have hres0 : _get_nested_data (PyVal.dict doc)
        (pySplit (dotJoin segs)) = some v := by
      rw [pySplit_dotJoin segs hsOK.1 hsOK.2]
      exact hres (segs, v) (List.mem_cons_self _ _)
    rw [List.map_cons, List.nodup_cons] at hnd
    rw [List.map_cons]
    by_cases hd : v.isDict = true
    · obtain ⟨dd, hdd⟩ := isDict_exists hd
      subst hdd
      rw [flattenRound_cons_dict doc _ _ acc dd hres0]
      rw [ih acc (fun q hq => hres q (List.mem_cons_of_mem _ hq))
        (fun q hq => hok q (List.mem_cons_of_mem _ hq)) hnd.2
        (fun q hq => hfresh q (List.mem_cons_of_mem _ hq))]
      rw [Option.map_some']
      rw [emitFlat_cons_dict (segs, PyVal.dict dd) rest rfl]
      rw [expandFrontier_cons_dict (segs, PyVal.dict dd) rest dd rfl]
      rw [List.map_append, List.map_map]
      have hkeys : (dd.map ((fun p => dotJoin p.1) ∘
          (fun q => ((segs, PyVal.dict dd).1 ++ [q.1], q.2))))
          = dd.map (fun q => dotJoin segs ++ "." ++ q.1) := by
        apply List.map_congr_left
        intro q _
        show dotJoin (segs ++ [q.1]) = dotJoin segs ++ "." ++ q.1
        exact dotJoin_append_singleton segs q.1 hsOK.1
      rw [hkeys]
    · have hd' : v.isDict = false := isDict_false_of_not hd
      rw [flattenRound_cons_scalar doc _ _ acc v hres0 hd']
      have hins : dictInsert acc (dotJoin segs) v
          = acc ++ [(dotJoin segs, v)] := by
        unfold dictInsert
        rw [if_neg]
        intro hany
        rcases List.any_eq_true.mp hany with ⟨q, hq, hqk⟩
        exact hfresh (segs, v) (List.mem_cons_self _ _) q hq
          (by simpa using hqk)
      rw [hins]
      rw [ih (acc ++ [(dotJoin segs, v)])
        (fun q hq => hres q (List.mem_cons_of_mem _ hq))
        (fun q hq => hok q (List.mem_cons_of_mem _ hq)) hnd.2 ?fresh]
      case fresh =>
        intro p' hp' q hq
        rcases List.mem_append.mp hq with h | h
        · exact hfresh p' (List.mem_cons_of_mem _ hp') q h
        · rw [List.mem_singleton.mp h]
          show dotJoin segs ≠ dotJoin p'.1
          intro he
          have hp'OK := hok p' (List.mem_cons_of_mem _ hp')
          have : segs = p'.1 :=
            dotJoin_inj segs p'.1 hsOK.1 hsOK.2 hp'OK.1 hp'OK.2 he
          exact hnd.1 (List.mem_map.mpr ⟨p', hp', this.symm⟩)
      rw [emitFlat_cons_scalar (segs, v) rest hd',
        expandFrontier_cons_scalar (segs, v) rest hd']
      rw [List.append_assoc]
      rfl

theorem flattenLoop_frontier (doc : Dict) :
    ∀ (fuel L : Nat) (fr : List (List String × PyVal)) (acc : Dict),
      (∀ p ∈ fr, _get_nested_data (PyVal.dict doc) p.1 = some p.2) →
      (∀ p ∈ fr, segsOK p.1) →
      (∀ p ∈ fr, p.1.length = L) →
      (∀ p ∈ fr, pyWF p.2 = true) →
      ((fr.map Prod.fst).Nodup) →
      (∀ q ∈ acc, q.2.isDict = false ∧ ∃ segs, segsOK segs ∧
        segs.length < L ∧ q.1 = dotJoin segs ∧
        _get_nested_data (PyVal.dict doc) segs = some q.2) →
      pyDepth (PyVal.dict doc) + 2 ≤ fuel + L →
      1 ≤ L →
      fr ≠ [] →
      ∃ F, flattenLoop doc fuel (fr.map (fun p => dotJoin p.1)) acc = some F ∧
        (F.map Prod.snd).Perm
          (acc.map Prod.snd ++ (fr.map (fun p => pyLeaves p.2)).flatten) ∧
        ∀ q ∈ F, q.2.isDict = false ∧ ∃ segs, segsOK segs ∧
          q.1 = dotJoin segs ∧
          _get_nested_data (PyVal.dict doc) segs = some q.2 := by
  intro fuel
  induction fuel with
  | zero =>
    intro L fr acc hres hok hlen hwf hnd hacc hfuel hL hne
    obtain ⟨p, hp⟩ := List.exists_mem_of_ne_nil fr hne
    have h1 := getNested_length_le p.1 _ p.2 (hres p hp)
    have h2 := hlen p hp
    omega
  | succ f ih =>
    intro L fr acc hres hok hlen hwf hnd hacc hfuel hL hne
    have hfresh : ∀ p ∈ fr, ∀ q ∈ acc, q.1 ≠ dotJoin p.1 := by
      intro p hp q hq he
      obtain ⟨_, segs, hsOK, hlt, hkey, _⟩ := hacc q hq
      have heq : segs = p.1 := by
        apply dotJoin_inj segs p.1 hsOK.1 hsOK.2 (hok p hp).1 (hok p hp).2
        rw [← hkey, he]
      rw [heq, hlen p hp] at hlt
      omega
    have hround := flattenRound_frontier doc fr acc hres hok hnd hfresh
    have hemitOK : ∀ q ∈ emitFlat fr, q.2.isDict = false ∧
        ∃ segs, segsOK segs ∧ segs.length < L + 1 ∧ q.1 = dotJoin segs ∧
        _get_nested_data (PyVal.dict doc) segs = some q.2 := by
      intro q hq
      obtain ⟨p, hp, hpd, hqe⟩ := mem_emitFlat hq
      subst hqe
      refine ⟨hpd, p.1, hok p hp, ?_, rfl, hres p hp⟩
      rw [hlen p hp]
      omega
    simp only [flattenLoop, hround]
    by_cases hexp : expandFrontier fr = []
    · rw [hexp]
      simp only [List.map_nil, if_pos]
      refine ⟨acc ++ emitFlat fr, rfl, ?_, ?_⟩
      · rw [List.map_append]
        apply List.Perm.append_left
        have hpe := emit_expand_leaves_perm fr
        rw [hexp] at hpe
        simpa using hpe
      · intro q hq
        rcases List.mem_append.mp hq with h | h
        · obtain ⟨h1, segs, a, _, c, d⟩ := hacc q h
          exact ⟨h1, segs, a, c, d⟩
        · obtain ⟨h1, segs, a, _, c, d⟩ := hemitOK q h
          exact ⟨h1, segs, a, c, d⟩
    · rw [if_neg (by simpa using hexp)]
      have hres' : ∀ e ∈ expandFrontier fr,
          _get_nested_data (PyVal.dict doc) e.1 = some e.2 := by
        intro e he
        obtain ⟨p, hp, dd, hdd, q, hq, hee⟩ := mem_expandFrontier he
        subst hee
        have hwfdd : pyWFEntries dd = true := by
          have := hwf p hp
          rw [hdd] at this
          exact this
        obtain ⟨_, hddnd⟩ := pyWFEntries_mem dd hwfdd
        show _get_nested_data (PyVal.dict doc) (p.1 ++ [q.1]) = some q.2
        rw [getNested_append p.1 [q.1] (PyVal.dict doc)]
        rw [hres p hp]
        show _get_nested_data p.2 [q.1] = some q.2
        rw [hdd]
        show (match dictGet dd q.1 with
          | some w => _get_nested_data w []
          | none => none) = some q.2
        rw [dictGet_of_mem_nodup dd hddnd q hq]
        simp [_get_nested_data]
      have hok' : ∀ e ∈ expandFrontier fr, segsOK e.1 := by
        intro e he
        obtain ⟨p, hp, dd, hdd, q, hq, hee⟩ := mem_expandFrontier he
        subst hee
        have hwfdd : pyWFEntries dd = true := by
          have := hwf p hp
          rw [hdd] at this
          exact this
        obtain ⟨hprops, _⟩ := pyWFEntries_mem dd hwfdd
        refine ⟨by simp, ?_⟩
        intro t ht
        rcases List.mem_append.mp ht with h | h
        · exact (hok p hp).2 t h
        · rw [List.mem_singleton.mp h]
          exact (hprops q hq).1
      have hlen' : ∀ e ∈ expandFrontier fr, e.1.length = L + 1 := by
        intro e he
        obtain ⟨p, hp, dd, hdd, q, hq, hee⟩ := mem_expandFrontier he
        subst hee
        show (p.1 ++ [q.1]).length = L + 1
        rw [List.length_append, hlen p hp]
        rfl
      have hwf' : ∀ e ∈ expandFrontier fr, pyWF e.2 = true := by
        intro e he
        obtain ⟨p, hp, dd, hdd, q, hq, hee⟩ := mem_expandFrontier he
        subst hee
        have hwfdd : pyWFEntries dd = true := by
          have := hwf p hp
          rw [hdd] at this
          exact this
        obtain ⟨hprops, _⟩ := pyWFEntries_mem dd hwfdd
        exact (hprops q hq).2
      have hnd' := expandFrontier_nodup L fr hlen hwf hnd
      have hacc' : ∀ q ∈ acc ++ emitFlat fr, q.2.isDict = false ∧
          ∃ segs, segsOK segs ∧ segs.length < L + 1 ∧ q.1 = dotJoin segs ∧
          _get_nested_data (PyVal.dict doc) segs = some q.2 := by
        intro q hq
        rcases List.mem_append.mp hq with h | h
        · obtain ⟨h1, segs, a, b, c, d⟩ := hacc q h
          exact ⟨h1, segs, a, by omega, c, d⟩
        · exact hemitOK q h
      obtain ⟨F, hF, hFperm, hFprops⟩ :=
        ih (L + 1) (expandFrontier fr) (acc ++ emitFlat fr)
          hres' hok' hlen' hwf' hnd' hacc' (by omega) (by omega) hexp
      refine ⟨F, hF, ?_, hFprops⟩
      have hswap : ∀ (A B C : List PyVal),
          (A ++ (B ++ C)).Perm (B ++ (A ++ C)) := by
        intro A B C
        rw [← List.append_assoc, ← List.append_assoc]
        exact List.Perm.append_right C List.perm_append_comm
      apply hFperm.trans
      rw [List.map_append, List.append_assoc]
      apply List.Perm.append_left
      exact emit_expand_leaves_perm fr

/-- C3 counterexample: for the document `{"a": {"b": 1}, "a.b": 2}` (legal
string keys, one containing a dot), flattening succeeds but returns
`{"a.b": 1}` — the scalar leaf `2` is lost and the multiset of flattened
values differs from the multiset of leaves `{1, 2}`, refuting the claim
for arbitrary string keys. -/
theorem c3_counterexample :
    _flatten_dict [("a", PyVal.dict [("b", PyVal.int 1)]),
        ("a.b", PyVal.int 2)]
      = some [("a.b", PyVal.int 1)] ∧
    ¬ ((((([("a.b", PyVal.int 1)] : Dict).map Prod.snd) : List PyVal) :
          Multiset PyVal)
        = ((pyLeavesEntries [("a", PyVal.dict [("b", PyVal.int 1)]),
            ("a.b", PyVal.int 2)] : List PyVal) : Multiset PyVal)) := by
  refine ⟨rfl, ?_⟩
  intro h
  rw [show pyLeavesEntries [("a", PyVal.dict [("b", PyVal.int 1)]),
      ("a.b", PyVal.int 2)] = [PyVal.int 1, PyVal.int 2] from rfl] at h
  have hc := congrArg Multiset.card h
  simp [Multiset.coe_card] at hc

/-- C3 amended: for every well-formed document (distinct, dot-free keys at
every nesting level — the shape every real JSON document in this pipeline
has), flattening succeeds, contains no mapping value, its multiset of
values is exactly the multiset of non-mapping leaves reachable through
mappings only, and every entry sits under its full dotted path. -/
theorem c3_flatten_leaves (d : Dict) (hwf : pyWFEntries d = true) :
    ∃ F, _flatten_dict d = some F ∧
      (∀ q ∈ F, (q.2).isDict = false) ∧
      ((((F.map Prod.snd) : List PyVal) : Multiset PyVal)
        = ((pyLeavesEntries d : List PyVal) : Multiset PyVal)) ∧
      (∀ q ∈ F, _get_nested_data (PyVal.dict d) (pySplit q.1) = some q.2) := by
  by_cases hd : d = []
  · subst hd
    exact ⟨[], rfl, by simp, rfl, by simp⟩
  · obtain ⟨wfprops, wfnodup⟩ := pyWFEntries_mem d hwf
    have hkeys : (d.map (fun p => (([p.1] : List String), p.2))).map
        (fun p => dotJoin p.1) = d.map Prod.fst := by
      rw [List.map_map]
      apply List.map_congr_left
      intro p _
      show dotJoin [p.1] = p.1
      exact dotJoin_singleton p.1
    obtain ⟨F, hF, hFperm, hFprops⟩ :=
      flattenLoop_frontier d (pyDepth (PyVal.dict d) + 1) 1
        (d.map (fun p => (([p.1] : List String), p.2))) []
        (by
          intro p' hp'
          rcases List.mem_map.mp hp' with ⟨q, hq, he⟩
          subst he
          show _get_nested_data (PyVal.dict d) [q.1] = some q.2
          have hg : dictGet d q.1 = some q.2 :=
            dictGet_of_mem_nodup d wfnodup q hq
          simp [_get_nested_data, hg])
        (by
          intro p' hp'
          rcases List.mem_map.mp hp' with ⟨q, hq, he⟩
          subst he
          refine ⟨by simp, ?_⟩
          intro t ht
          rw [List.mem_singleton.mp ht]
          exact (wfprops q hq).1)
        (by
          intro p' hp'
          rcases List.mem_map.mp hp' with ⟨q, hq, he⟩
          subst he
          rfl)
        (by
          intro p' hp'
          rcases List.mem_map.mp hp' with ⟨q, hq, he⟩
          subst he
          exact (wfprops q hq).2)
        (by
          have he : (d.map (fun p => (([p.1] : List String), p.2))).map
              Prod.fst = (d.map Prod.fst).map (fun k => [k]) := by
            rw [List.map_map, List.map_map]
            rfl
          rw [he]
          apply List.Nodup.map ?_ wfnodup
          intro a b h
          simpa using h)
        (by intro q hq; simp at hq)
        (by omega)
        (by omega)
        (by simpa using hd)
    refine ⟨F, ?_, fun q hq => (hFprops q hq).1, ?_, ?_⟩
    · unfold _flatten_dict
      rw [← hkeys]
      exact hF
    · apply Multiset.coe_eq_coe.mpr
      apply hFperm.trans
      rw [show (List.map Prod.snd ([] : Dict)) = ([] : List PyVal) from rfl,
        List.nil_append]
      rw [List.map_map]
      rw [show ((fun p => pyLeaves p.2) ∘
          (fun p => (([p.1] : List String), p.2)))
          = (fun p : String × PyVal => pyLeaves p.2) from rfl]
      rw [← pyLeavesEntries_eq_flatten]
    · intro q hq
      obtain ⟨segs, hsOK, hkey, hres⟩ := (hFprops q hq).2
      rw [hkey, pySplit_dotJoin segs hsOK.1 hsOK.2]
      exact hres

/-- Witness for C3's amended claim at a concrete nested document. -/
theorem c3_witness :
    pyWFEntries [("a", PyVal.dict [("b", PyVal.int 1), ("c", PyVal.str "x")]),
        ("d", PyVal.int 2)] = true ∧
    (∃ F, _flatten_dict [("a", PyVal.dict [("b", PyVal.int 1),
          ("c", PyVal.str "x")]), ("d", PyVal.int 2)] = some F ∧
      (∀ q ∈ F, (q.2).isDict = false) ∧
      ((((F.map Prod.snd) : List PyVal) : Multiset PyVal)
        = ((pyLeavesEntries [("a", PyVal.dict [("b", PyVal.int 1),
            ("c", PyVal.str "x")]), ("d", PyVal.int 2)] : List PyVal) :
            Multiset PyVal)) ∧
      (∀ q ∈ F, _get_nested_data
        (PyVal.dict [("a", PyVal.dict [("b", PyVal.int 1),
          ("c", PyVal.str "x")]), ("d", PyVal.int 2)])
        (pySplit q.1) = some q.2)) :=
  ⟨rfl, c3_flatten_leaves
    [("a", PyVal.dict [("b", PyVal.int 1), ("c", PyVal.str "x")]),
     ("d", PyVal.int 2)] rfl⟩
